import Mathlib

/-!
cbao: the Bao game logic of `BaoTree.c`, embedded in Lean

A shallow embedding of the move enumerator (`get_moves`), the move executor
(`start_move`, `exec_move`, `continue_move`), tree growth (`grow_tree`), tree
navigation (`find_branch`, `shift_tree`, `unshift_tree`) and the search
(`get_best_score`, `best_branch`); beside the executor, the list of the board
cells each of its calls accesses (`start_move_accesses`, `exec_move_accesses`).

Conventions of the embedding

* `unsigned int` values (seed counts, `enum Hole`, a hand's `nkhomo`) are natural
  numbers; every C operation that can wrap is written with an explicit
  reduction modulo `2 ^ 32` (`u32_inc`, `u32_dec`, `u32_add`, `u32_sub`).
  `enum Hole` has no negative enumerator, so it is an unsigned type; the value
  `-1` the code stores in `trapped_hole` is `4294967295`.
* `int` values (`takata`, `nyumba[]`, the rule fields, `dir`) are integers; an
  `int` compared with an `unsigned int` is first converted (`int_to_u32`).
* `board[p][h]` is `s.board p h`.  The C array has 17 holes per side (indices
  0 to 16) and an access outside it is undefined in C; the embedding is a total
  function of the index, so it agrees with the C code on every run whose
  accesses stay inside the array.  The only accesses that can leave it are those
  at the hand's hole (inside the array whenever the move starts inside it) and
  the read of `board[player][trapped_hole]` by `test_mtaji_special` (inside the
  array when `trapped_hole ≤ 16`; the value `-1` that `prep_state` stores for
  "no trap" is outside it).  The statements about what `get_moves` returns in
  general carry the hypothesis `trap_read_in_bounds`, which says that this read,
  when `get_moves` comes to it, is inside the array.
* A `Hand` points to the state it mutates; here the hand carries that state.
* A field of an allocated node that the code never writes (`parent` and
  `nchildren` of a node made by `dup_node`) has the value `none`; a function
  that reads it has no result (`none`), except in the search, where the value
  read is a parameter (`leftover`).  Allocation is taken to succeed.
* The `children` array has `MAXTRANS` slots; the list of children of the
  embedding is not bounded, so it agrees with the C code on every run that
  stores at most `MAXTRANS` children (`grow_tree_in_bounds`), and up to the
  store of child number `MAXTRANS + 1` on the others.
* `grow_tree` returns its count as an `int`; the callers in the search take the
  value -1 for a failed allocation.  A count of 4294967295 can only be read
  from a field that was never written; the embedding of the search covers
  the other values of `leftover`.
-/

namespace Bao

/-! ## Machine arithmetic -/

/-- Number of values of an `unsigned int`. -/
def U32 : Nat := 4294967296

/-- Unsigned increment `x++`. -/
def u32_inc (x : Nat) : Nat := (x + 1) % U32

/-- Unsigned decrement `x--`. -/
def u32_dec (x : Nat) : Nat := (x + (U32 - 1)) % U32

/-- Unsigned addition `x + y`. -/
def u32_add (x y : Nat) : Nat := (x + y) % U32

/-- Unsigned subtraction `x - y`. -/
def u32_sub (x y : Nat) : Nat := (x + (U32 - y % U32)) % U32

/-- Conversion of an `int` to `unsigned int`. -/
def int_to_u32 (i : Int) : Nat := (i % (U32 : Int)).toNat

/-! ## Constants of `tree.h` -/

def NHOLES : Nat := 17
def MAXTRANS : Int := 20

def H_LBKICHWA : Nat := 15
def H_LBKIMBI : Nat := 14
def H_LFKICHWA : Nat := 0
def H_LFKIMBI : Nat := 1
def H_NYUMBA : Nat := 4
def H_RBKICHWA : Nat := 8
def H_RBKIMBI : Nat := 9
def H_RFKICHWA : Nat := 7
def H_RFKIMBI : Nat := 6
def H_STORE : Nat := 16

/-- The value of `(Hole) -1`. -/
def H_NONE : Nat := 4294967295

def F_PLAYER : Nat := 1

def MXD_LEFT : Int := -1
def MXD_RIGHT : Int := 1

/-- The `enum Player`. -/
inductive Player where
  | P_NORTH
  | P_SOUTH
  deriving DecidableEq, Repr

open Player

/-- The `enum MoveExecSts`. -/
inductive MoveExecSts where
  | MXS_ERROR
  | MXS_HAULTED
  | MXS_DONE
  | MXS_NOTDONE
  deriving DecidableEq, Repr

open MoveExecSts

/-- The `struct BaoState`. -/
structure BaoState where
  board : Player → Nat → Nat
  flags : Nat
  takata : Int
  nyumba : Player → Int
  trapped_hole : Nat
  player : Player

/-- The `struct Move`. -/
structure Move where
  hole : Nat
  dir : Int
  nyumba_sown : Int
  deriving DecidableEq, Repr

/-- The `struct BaoRules` (the initial layout `board_setting` is a function of the hole). -/
structure BaoRules where
  board_setting : Nat → Nat
  has_nyumba : Int
  has_mtaji_moja_trap : Int
  max_nkhomo_for_mtaji_capture : Int
  min_nkhomo_for_namua_special : Int
  max_move_exec_depth : Int

/-- The `struct Hand`; `state` is the state the C hand points to. -/
structure Hand where
  state : BaoState
  side : Player
  hole : Nat
  nkhomo : Nat
  dir : Int

/-- Assignment `s->board[p][h] = v`. -/
def set_board (s : BaoState) (p : Player) (h v : Nat) : BaoState :=
  { s with board := fun q i => if q = p ∧ i = h then v else s.board q i }

/-- Assignment `s->nyumba[p] = v`. -/
def set_nyumba (s : BaoState) (p : Player) (v : Int) : BaoState :=
  { s with nyumba := fun q => if q = p then v else s.nyumba q }

/-- The macro `GET_PLAYER(f)`, that is `f & F_PLAYER`, as a player. -/
def GET_PLAYER (f : Nat) : Player := if f % 2 = 0 then P_NORTH else P_SOUTH

/-- The macro `IN_NAMUA(state, player)`. -/
def IN_NAMUA (s : BaoState) (p : Player) : Bool := s.board p H_STORE != 0

/-- The macro `IN_MTAJI(state, player)`. -/
def IN_MTAJI (s : BaoState) (p : Player) : Bool := s.board p H_STORE == 0

/-- The macro `IN_CAPTURE_RANGE(hole)`. -/
def IN_CAPTURE_RANGE (h : Nat) : Bool := decide (H_LFKICHWA ≤ h) && decide (h ≤ H_RFKICHWA)

/-! ## Move enumeration -/

/-- The function `get_opposing_hole`; the subtraction is unsigned. -/
def get_opposing_hole (h : Nat) : Nat :=
  let h1 := u32_sub H_RFKICHWA h
  if h1 < H_LFKICHWA then u32_add H_STORE h1 else h1

/-- The function `get_opponent`. -/
def get_opponent (p : Player) : Player :=
  if p = P_NORTH then P_SOUTH else P_NORTH

/-- The function `can_capture`; the mover is read from the packed flags byte. -/
def can_capture (s : BaoState) (_r : BaoRules) (h : Nat) : Bool :=
  let p := GET_PLAYER s.flags
  if !IN_CAPTURE_RANGE h || s.board p h == 0
      || s.board (get_opponent p) (get_opposing_hole h) == 0 then false
  else true

/-- The type `MoveTestFunc`. -/
abbrev MoveTestFunc := BaoState → BaoRules → Nat → Int → Bool

/-- The function `test_namua_capture`. -/
def test_namua_capture : MoveTestFunc := fun state rules h _d =>
  can_capture state rules h

/-- The function `test_namua_takata`. -/
def test_namua_takata : MoveTestFunc := fun state _rules h _d =>
  if state.board state.player h == 0
      || (h == H_NYUMBA && state.nyumba state.player != 0) then false
  else true

/-- The function `test_namua_takata_singleton`. -/
def test_namua_takata_singleton : MoveTestFunc := fun state _rules h _d =>
  if state.board state.player h == 0 || h == H_NYUMBA then false
  else true

/-- The function `test_namua_special`. -/
def test_namua_special : MoveTestFunc := fun state _rules _h _d =>
  if state.nyumba state.player != 0 && state.board state.player H_NYUMBA != 0 then true
  else false

/-- The function `test_mtaji_capture`; `h += c`, `h -= c` are unsigned. -/
def test_mtaji_capture : MoveTestFunc := fun state rules h d =>
  if !IN_CAPTURE_RANGE h || state.board state.player h == 0
      || decide (state.board state.player h > int_to_u32 rules.max_nkhomo_for_mtaji_capture)
  then false
  else if d = MXD_RIGHT then
    can_capture state rules (u32_add h (state.board state.player h) % (H_LBKICHWA + 1))
  else if d = MXD_LEFT then
    can_capture state rules (u32_sub h (state.board state.player h) % (H_LBKICHWA + 1))
  else false

/-- The function `test_mtaji_takata`. -/
def test_mtaji_takata : MoveTestFunc := fun state rules h _d =>
  if state.board state.player h ≤ 1 then false
  else if rules.has_mtaji_moja_trap ≠ 0 ∧ state.trapped_hole = h then
    if h = H_NYUMBA ∧ state.nyumba state.player ≠ 0 then true else false
  else true

/-- The loop of `test_mtaji_special` over the front row: `true` when the loop
runs to its end, `false` when it returns 0. -/
def test_mtaji_special_loop (state : BaoState) : List Nat → Bool
  | [] => true
  | i :: rest =>
    if i = state.trapped_hole then test_mtaji_special_loop state rest
    else if state.board state.player i > 1 then false
    else test_mtaji_special_loop state rest

/-- The function `test_mtaji_special`; it reads the board at the trapped hole,
after the test `trapped_hole < H_RFKICHWA`.  The read is inside the board when
`trapped_hole ≤ 16`; for a larger value, `(Hole) -1` included, the C function
reads outside the array, and the total board of the embedding stands for the
C code only where the read is inside. -/
def test_mtaji_special : MoveTestFunc := fun state _rules _h _d =>
  if state.trapped_hole < H_RFKICHWA
      ∨ state.board state.player state.trapped_hole ≤ 1 then false
  else test_mtaji_special_loop state [0, 1, 2, 3, 4, 5, 6, 7]

/-- The holes `start, start + 1, ..` (`n` of them) a `while(start <= stop)` loop visits. -/
def hole_seq (start : Nat) : Nat → List Nat
  | 0 => []
  | n + 1 => start :: hole_seq (start + 1) n

/-- The holes of the range `[start, stop]`, none when `stop < start`.  (The C
counter is unsigned and would wrap after 4294967295; `get_moves` passes the
constant rows and `[trapped_hole, trapped_hole]`, and for a trapped hole of
4294967295 the first test already reads outside the board.) -/
def hole_range (start stop : Nat) : List Nat := hole_seq start (stop + 1 - start)

/-- The loop of `get_moves_bak`: `buf` holds the `nmoves` entries written so far,
each a pair (hole, dir). -/
def get_moves_bak_loop (bufsz : Int) (state : BaoState) (rules : BaoRules)
    (test_move : MoveTestFunc) : List Nat → List (Nat × Int) → List (Nat × Int)
  | [], buf => buf
  | start :: rest, buf =>
    if test_move state rules start MXD_LEFT = true ∧ (buf.length : Int) = bufsz then buf
    else
      let buf1 := if test_move state rules start MXD_LEFT then buf ++ [(start, MXD_LEFT)] else buf
      if test_move state rules start MXD_RIGHT = true ∧ (buf1.length : Int) = bufsz then buf1
      else
        let buf2 :=
          if test_move state rules start MXD_RIGHT then buf1 ++ [(start, MXD_RIGHT)] else buf1
        get_moves_bak_loop bufsz state rules test_move rest buf2

/-- The function `get_moves_bak`: the entries written to `buf`; the C return
value is the length of the list. -/
def get_moves_bak (bufsz : Int) (state : BaoState) (rules : BaoRules)
    (start stop : Nat) (test_move : MoveTestFunc) : List (Nat × Int) :=
  get_moves_bak_loop bufsz state rules test_move (hole_range start stop) []

/-- The function `get_moves`: the entries written to `buf` and the state as the
call leaves it. -/
def get_moves (bufsz : Int) (state : BaoState) (rules : BaoRules) :
    List (Nat × Int) × BaoState :=
  if IN_NAMUA state state.player then
    let m1 := get_moves_bak bufsz state rules H_LFKICHWA H_RFKICHWA test_namua_capture
    if m1.length ≠ 0 then (m1, state)
    else
      let state1 := { state with takata := 1 }
      let m2 := get_moves_bak bufsz state1 rules H_LFKICHWA H_RFKICHWA test_namua_takata
      if m2.length ≠ 0 then (m2, state1)
      else
        let m3 := get_moves_bak bufsz state1 rules H_LFKICHWA H_RFKICHWA
          test_namua_takata_singleton
        if m3.length ≠ 0 then (m3, state1)
        else
          let m4 := get_moves_bak bufsz state1 rules H_NYUMBA H_NYUMBA test_namua_special
          if m4.length = 0 then (m4, { state1 with takata := 0 })
          else (m4, state1)
  else
    let m1 := get_moves_bak bufsz state rules H_LFKICHWA H_LBKICHWA test_mtaji_capture
    if m1.length ≠ 0 then (m1, state)
    else
      let state1 := { state with takata := 1 }
      let m2 := get_moves_bak bufsz state1 rules H_LFKICHWA H_RFKICHWA test_mtaji_takata
      if m2.length ≠ 0 then (m2, state1)
      else
        let m3 := get_moves_bak bufsz state1 rules state1.trapped_hole state1.trapped_hole
          test_mtaji_special
        if m3.length ≠ 0 then (m3, state1)
        else
          let m4 := get_moves_bak bufsz state1 rules H_RBKICHWA H_LBKICHWA test_mtaji_takata
          if m4.length = 0 then (m4, { state1 with takata := 0 })
          else (m4, state1)

/-! ## Move execution -/

/-- The function `can_play_namua_special`. -/
def can_play_namua_special (s : BaoState) (r : BaoRules) (h : Nat) : Bool :=
  s.takata != 0 && h == H_NYUMBA && s.nyumba s.player != 0
    && decide (s.board s.player h ≥ int_to_u32 r.min_nkhomo_for_namua_special)

/-- The function `Hand_lift`. -/
def Hand_lift (h : Hand) : Hand :=
  { h with
    nkhomo := u32_add h.nkhomo (h.state.board h.side h.hole)
    state := set_board h.state h.side h.hole 0 }

/-- The function `Hand_can_lift`. -/
def Hand_can_lift (h : Hand) (_r : BaoRules) : Bool :=
  decide (h.state.board h.side h.hole > 1)

/-- The function `Hand_can_switch_side`. -/
def Hand_can_switch_side (h : Hand) (_r : BaoRules) : Bool :=
  if h.hole > H_RFKICHWA ∨ h.state.takata ≠ 0
      ∨ h.state.board h.side h.hole ≤ 1
      ∨ h.state.board (get_opponent h.side) (get_opposing_hole h.hole) = 0 then false
  else true

/-- The function `Hand_sow`. -/
def Hand_sow (h : Hand) : Hand :=
  { h with
    state := set_board h.state h.side h.hole (u32_inc (h.state.board h.side h.hole))
    nkhomo := u32_dec h.nkhomo }

/-- The function `Hand_switch_side`. -/
def Hand_switch_side (h : Hand) : Hand :=
  { h with side := get_opponent h.side, hole := get_opposing_hole h.hole }

/-- The function `Hand_step`; `++` and `--` on the hole are unsigned. -/
def Hand_step (h : Hand) : Hand :=
  if h.dir = MXD_RIGHT then
    if u32_inc h.hole > H_LBKICHWA then { h with hole := H_LFKICHWA }
    else { h with hole := u32_inc h.hole }
  else if h.dir = MXD_LEFT then
    if u32_dec h.hole > H_LBKICHWA then { h with hole := H_LBKICHWA }
    else { h with hole := u32_dec h.hole }
  else h

/-- The function `Hand_reset`. -/
def Hand_reset (h : Hand) : Hand :=
  if h.hole ≤ H_LFKIMBI then { h with hole := H_LFKICHWA, dir := MXD_RIGHT }
  else if h.hole ≥ H_RFKIMBI then { h with hole := H_RFKICHWA, dir := MXD_LEFT }
  else if h.dir = MXD_RIGHT then { h with hole := H_LFKICHWA }
  else { h with hole := H_RFKICHWA }

/-- The function `start_move`; it reads `move->hole` and `move->dir` only. -/
def start_move (state : BaoState) (rules : BaoRules) (move : Move) : Hand :=
  if state.board state.player H_STORE ≠ 0 then
    let s1 := set_board state state.player H_STORE (u32_dec (state.board state.player H_STORE))
    let s2 := set_board s1 s1.player move.hole (u32_inc (s1.board s1.player move.hole))
    if can_play_namua_special s2 rules move.hole then
      let s3 := set_board s2 s2.player H_NYUMBA (u32_dec (s2.board s2.player H_NYUMBA))
      let s4 := set_board s3 s3.player H_STORE (u32_dec (s3.board s3.player H_STORE))
      { state := s4, side := state.player, hole := move.hole, nkhomo := 2, dir := move.dir }
    else
      { state := s2, side := state.player, hole := move.hole, nkhomo := 0, dir := move.dir }
  else
    let s1 :=
      if state.takata = 0 ∧ (state.nyumba P_NORTH ≠ 0 ∨ state.nyumba P_SOUTH ≠ 0) then
        set_nyumba (set_nyumba state P_NORTH 0) P_SOUTH 0
      else state
    Hand_lift { state := s1, side := state.player, hole := move.hole, nkhomo := 0,
                dir := move.dir }

/-- One pass through the body of the `while` loop of `exec_move`: the hand after
the pass, and the status when the pass returns (`none` when the loop goes on to
`steps--`). -/
def exec_step (hand : Hand) (rules : BaoRules) : Hand × Option MoveExecSts :=
  if hand.nkhomo = 0 then
    if Hand_can_switch_side hand rules then
      let h1 := Hand_lift (Hand_switch_side hand)
      if h1.hole = H_NYUMBA ∧ h1.state.nyumba h1.side ≠ 0 then
        ({ h1 with state := set_nyumba h1.state h1.side 0 }, none)
      else (h1, none)
    else if Hand_can_lift hand rules then
      if hand.hole = H_NYUMBA ∧ hand.state.nyumba hand.side ≠ 0 then
        if hand.state.board hand.side H_STORE ≠ 0 then
          if hand.state.takata ≠ 0 then (hand, some MXS_DONE)
          else (hand, some MXS_HAULTED)
        else
          let h1 := Hand_lift hand
          ({ h1 with state := set_nyumba h1.state h1.side 0 }, none)
      else if hand.state.board hand.side H_STORE = 0
          ∧ hand.state.takata ≠ 0
          ∧ hand.hole = hand.state.trapped_hole
          ∧ rules.has_mtaji_moja_trap ≠ 0 then
        (hand, some MXS_DONE)
      else (Hand_lift hand, none)
    else (hand, some MXS_DONE)
  else
    if hand.side ≠ hand.state.player then
      (Hand_sow (Hand_reset (Hand_switch_side hand)), none)
    else
      (Hand_sow (Hand_step hand), none)

/-- The `while(steps > 0)` loop of `exec_move`, `n` being the value of `steps`. -/
def exec_loop (rules : BaoRules) : Nat → Hand → Hand × MoveExecSts
  | 0, hand => (hand, MXS_NOTDONE)
  | n + 1, hand =>
    match exec_step hand rules with
    | (h1, some sts) => (h1, sts)
    | (h1, none) => exec_loop rules n h1

/-- The function `exec_move`: the hand as the call leaves it and the status returned. -/
def exec_move (hand : Hand) (rules : BaoRules) (steps : Int) : Hand × MoveExecSts :=
  exec_loop rules steps.toNat hand

/-- The function `continue_move`. -/
def continue_move (hand : Hand) : Hand :=
  { hand with state := set_nyumba hand.state hand.side 0 }

/-- Successive calls of `exec_move` on one hand, one per step count of the list:
the hand after the last call and the statuses returned, in order. -/
def exec_calls (rules : BaoRules) : List Int → Hand → Hand × List MoveExecSts
  | [], hand => (hand, [])
  | n :: rest, hand =>
    let r := exec_move hand rules n
    let q := exec_calls rules rest r.1
    (q.1, r.2 :: q.2)

/-! ## Tree growth -/

/-- The `struct BaoTree`.  `parent` is `none` while the field has never been
written, `some none` when it is `NULL`, `some (some p)` when it points to `p`.
`children` lists the nodes stored in the first slots of the `children` array,
in order (the other slots are `NULL`).  `nchildren` is `none` while the field
has never been written. -/
inductive BaoTree where
  | mk (move : Move) (state : BaoState) (parent : Option (Option BaoTree))
      (children : List BaoTree) (nchildren : Option Nat)

/-- Field `move`. -/
def BaoTree.move : BaoTree → Move
  | .mk m _ _ _ _ => m

/-- Field `state`. -/
def BaoTree.state : BaoTree → BaoState
  | .mk _ s _ _ _ => s

/-- Field `parent`. -/
def BaoTree.parent : BaoTree → Option (Option BaoTree)
  | .mk _ _ p _ _ => p

/-- Field `children`. -/
def BaoTree.children : BaoTree → List BaoTree
  | .mk _ _ _ c _ => c

/-- Field `nchildren`. -/
def BaoTree.nchildren : BaoTree → Option Nat
  | .mk _ _ _ _ n => n

/-- The node whose `state` has become `st` (a hand works on the state in place). -/
def set_state (node : BaoTree) (st : BaoState) : BaoTree :=
  .mk node.move st node.parent node.children node.nchildren

/-- The function `dup_node`: `move` and `state` are copied, the child slots are
zeroed, `parent` and `nchildren` are left as allocated. -/
def dup_node (node : BaoTree) : BaoTree :=
  .mk node.move node.state none [] none

/-- The function `get_mtaji_moja_trap`; `-1` is `H_NONE`. -/
def get_mtaji_moja_trap (state : BaoState) (rules : BaoRules) : Nat :=
  match get_moves_bak MAXTRANS state rules H_LFKICHWA H_LBKICHWA test_mtaji_capture with
  | [] => H_NONE
  | m0 :: rest => if rest.all (fun m => m.1 == m0.1) then m0.1 else H_NONE

/-- The function `prep_state`. -/
def prep_state (state : BaoState) (rules : BaoRules) : BaoState :=
  let s1 :=
    if IN_MTAJI state state.player = true ∧ state.takata ≠ 0
        ∧ rules.has_mtaji_moja_trap ≠ 0 then
      { state with trapped_hole := get_mtaji_moja_trap state rules }
    else { state with trapped_hole := H_NONE }
  { s1 with takata := 0, player := get_opponent s1.player }

/-- The function `update_node`; of `move` it reads the hole and the direction. -/
def update_node (node : BaoTree) (move : Nat × Int) (rules : BaoRules)
    (nyumba_sown : Int) : BaoTree :=
  .mk ⟨move.1, move.2, nyumba_sown⟩ (prep_state node.state rules) node.parent node.children
    node.nchildren

/-- The `for` loop of `grow_tree` over the moves of `buf`; `kids` are the
children stored so far (`parent->nchildren` is their number).  The list is not
bounded, the C array `children` has `MAXTRANS` slots. -/
def grow_tree_loop (rules : BaoRules) (parent : BaoTree) :
    List (Nat × Int) → List BaoTree → List BaoTree
  | [], kids => kids
  | mv :: rest, kids =>
    let child := dup_node parent
    let hand := start_move child.state rules ⟨mv.1, mv.2, 0⟩
    let r1 := exec_move hand rules rules.max_move_exec_depth
    if r1.2 = MXS_HAULTED then
      let paused := update_node (dup_node (set_state child r1.1.state)) mv rules 1
      let r2 := exec_move (continue_move r1.1) rules rules.max_move_exec_depth
      if r2.2 = MXS_NOTDONE then grow_tree_loop rules parent rest (kids ++ [paused])
      else
        grow_tree_loop rules parent rest
          (kids ++ [paused, update_node (set_state child r2.1.state) mv rules 0])
    else if r1.2 = MXS_NOTDONE then grow_tree_loop rules parent rest kids
    else
      grow_tree_loop rules parent rest
        (kids ++ [update_node (set_state child r1.1.state) mv rules 0])

/-- The function `grow_tree` (allocation succeeding): the value returned and the
node as the call leaves it; `none` when the call reads an `nchildren` that was
never written.  A call on a node without children takes a node whose child
slots are all `NULL`, as every node made by `new_tree` or `dup_node` is. -/
def grow_tree (parent : BaoTree) (rules : BaoRules) : Option (Nat × BaoTree) :=
  match parent.nchildren with
  | none => none
  | some n =>
    if n ≠ 0 then some (n, parent)
    else
      let g := get_moves MAXTRANS parent.state rules
      let parent1 := set_state parent g.2
      let kids := grow_tree_loop rules parent1 g.1 []
      some (kids.length, .mk parent.move g.2 parent.parent kids (some kids.length))

/-- Seeds on one side of the board: the 16 play holes and the store. -/
def side_seeds (s : BaoState) (p : Player) : Nat :=
  ((List.range NHOLES).map (s.board p)).sum

/-- Seeds on the board: all 17 holes of both sides. -/
def total_seeds (s : BaoState) : Nat :=
  side_seeds s P_NORTH + side_seeds s P_SOUTH

/-- Every seed count inside the board array is a value of `unsigned int`. -/
def board_u32 (s : BaoState) : Prop :=
  ∀ h, h < NHOLES → s.board P_NORTH h < U32 ∧ s.board P_SOUTH h < U32

/-- Seeds in play: the seeds on the board and the seeds held in the hand. -/
def seeds_in_play (h : Hand) : Nat := total_seeds h.state + h.nkhomo

/-- A hand between two steps of a move: it is on the mover's side unless it
holds seeds, and the counts of the board are values of `unsigned int`. -/
def hand_ok (h : Hand) : Prop :=
  (h.side = h.state.player ∨ h.nkhomo ≠ 0) ∧ board_u32 h.state

/-- A hand whose mover's reserve is no longer intact. -/
def hand_resumed (h : Hand) : Prop :=
  h.state.nyumba h.state.player = 0 ∧ hand_ok h

/-! ## Tree construction, navigation and search -/

/-- Conversion to `int` (32 bits, two's complement) of the result of an
arithmetic operation. -/
def to_int32 (z : Int) : Int := (z + 2147483648) % 4294967296 - 2147483648

/-- The function `new_tree` (allocation succeeding).  The `flags` byte of the
state is never written: `flags` is the value the allocation holds. -/
def new_tree (rules : BaoRules) (flags : Nat) : BaoTree :=
  .mk ⟨H_STORE, 0, 0⟩
    { board := fun _ h => if h ≤ H_STORE then rules.board_setting h else 0
      flags := flags
      takata := 0
      nyumba := fun _ => rules.has_nyumba
      trapped_hole := H_STORE
      player := P_SOUTH }
    (some none) [] (some 0)

/-- The macro `CMP_MOVE(m, n)`. -/
def CMP_MOVE (m n : Move) : Bool :=
  (m.hole == n.hole) && (m.dir == n.dir) && (m.nyumba_sown == n.nyumba_sown)

/-- The `for` loop of `find_branch` from index `i`, with `n` indices left below
`node->nchildren`; the list holds the children stored from slot `i` on.  The
result is `none` when the loop reaches a slot that is `NULL`. -/
def find_branch_loop (move : Move) : Nat → Nat → List BaoTree → Option Int
  | _, 0, _ => some (-1)
  | _, _ + 1, [] => none
  | i, n + 1, c :: cs =>
    if CMP_MOVE c.move move then some (i : Int) else find_branch_loop move (i + 1) n cs

/-- The function `find_branch`; `none` when it reads an `nchildren` that was
never written or a slot that is `NULL`. -/
def find_branch (node : BaoTree) (move : Move) : Option Int :=
  match node.nchildren with
  | none => none
  | some n => find_branch_loop move 0 n node.children

/-- The function `shift_tree`: the value returned and the cursor as the call
leaves it, `none` standing for the `NULL` pointer.  The result is `none` when the
call reads an `nchildren` that was never written or a slot outside the array. -/
def shift_tree (cursor : BaoTree) (path : Nat) : Option (Int × Option BaoTree) :=
  match cursor.nchildren with
  | none => none
  | some n =>
    if path > n then some (-1, some cursor)
    else if path < MAXTRANS.toNat then some (0, cursor.children.get? path)
    else none

/-- The function `unshift_tree`: the value returned and the cursor as the call
leaves it; `none` when the call reads a `parent` that was never written. -/
def unshift_tree (cursor : BaoTree) : Option (Int × BaoTree) :=
  match cursor.parent with
  | none => none
  | some none => some (-1, cursor)
  | some (some p) => some (0, p)

/-- The `for` loop of `eval_branch`: `score += board[mover][h]` over the holes
of the list. -/
def eval_branch_loop (state : BaoState) : List Nat → Int → Int
  | [], score => score
  | h :: hs, score =>
    eval_branch_loop state hs (to_int32 (score + (state.board state.player h : Int)))

/-- The function `eval_branch`; `none` when it reads an `nchildren` that was
never written. -/
def eval_branch (node : BaoTree) (player : Player) : Option Int :=
  match node.nchildren with
  | none => none
  | some n =>
    if n = 0 then some 0
    else
      let score :=
        eval_branch_loop node.state [0, 1, 2, 3, 4, 5, 6, 7, 8, 9, 10, 11, 12, 13, 14, 15] 0
      if player ≠ node.state.player then some (to_int32 (-score)) else some score

/-- The node as a reader of its `nchildren` field finds it: where the field was
never written, the reader finds the value `leftover` that the allocation holds. -/
def count_read (leftover : Nat) (node : BaoTree) : BaoTree :=
  match node.nchildren with
  | none => .mk node.move node.state node.parent node.children (some leftover)
  | some _ => node

/-- The `for` loop of `get_best_score` over the first `n` slots, `score_of`
being the recursive call on a child; `none` when a slot is `NULL` or a
recursive call has no result. -/
def get_best_score_loop (score_of : BaoTree → Option Int) :
    Nat → List BaoTree → Int → Option Int
  | 0, _, best => some best
  | _ + 1, [], _ => none
  | n + 1, c :: cs, best =>
    match score_of c with
    | none => none
    | some score => get_best_score_loop score_of n cs (if score > best then score else best)

/-- The function `get_best_score` for a depth that is not negative (allocation
succeeding): the score returned and the node as the call leaves it.  The
children of a node are made by `dup_node`, which leaves their `nchildren`
unwritten; `leftover` is the value the calls then read there.  The result is
`none` when a call dereferences a slot that is `NULL`. -/
def get_best_score (leftover : Nat) (player : Player) (rules : BaoRules) :
    Nat → BaoTree → Option (Int × BaoTree)
  | 0, node =>
    match grow_tree (count_read leftover node) rules with
    | none => none
    | some g => (eval_branch g.2 player).map (fun v => (v, g.2))
  | depth + 1, node =>
    match grow_tree (count_read leftover node) rules with
    | none => none
    | some g =>
      match g.2.nchildren with
      | none => none
      | some n =>
        match get_best_score_loop
            (fun c => (get_best_score leftover player rules depth c).map Prod.fst)
            n g.2.children 0 with
        | none => none
        | some best =>
          some (best, .mk g.2.move g.2.state g.2.parent (g.2.children.drop n) (some 0))

/-- The `for` loop of `best_branch` from index `i`, with `n` indices left below
`node->nchildren`; `calls` counts the calls of `rand()` made so far and
`rand k` is the value of call `k`.  The product `rand() * 10` is reduced to 32
bits and `%` is the remainder of C. -/
def best_branch_loop (score_of : BaoTree → Option Int) (rand : Nat → Int) :
    Nat → Nat → List BaoTree → Int → Int → Nat → Option Int
  | _, 0, _, best_path, _, _ => some best_path
  | _, _ + 1, [], _, _, _ => none
  | i, n + 1, c :: cs, best_path, max_score, calls =>
    match score_of c with
    | none => none
    | some score =>
      if score = max_score then
        best_branch_loop score_of rand (i + 1) n cs
          (if (to_int32 (rand calls * 10)).tmod 2 ≠ 0 then best_path else (i : Int))
          max_score (calls + 1)
      else if score > max_score then
        best_branch_loop score_of rand (i + 1) n cs (i : Int) score calls
      else best_branch_loop score_of rand (i + 1) n cs best_path max_score calls

/-- The function `best_branch` for a depth that is not negative (allocation
succeeding): the value returned.  `leftover` is as in `get_best_score`. -/
def best_branch (leftover : Nat) (rand : Nat → Int) (node : BaoTree) (rules : BaoRules)
    (depth : Nat) : Option Int :=
  match grow_tree (count_read leftover node) rules with
  | none => none
  | some g =>
    match g.2.nchildren with
    | none => none
    | some n =>
      best_branch_loop
        (fun c => (get_best_score leftover g.2.state.player rules depth c).map Prod.fst)
        rand 0 n g.2.children (-1) (-1000) 0

/-! ## Board accesses of the executor -/

/-- The cells `board[side][hole]` that `Hand_lift` accesses: the read of the
count and the write of 0. -/
def Hand_lift_accesses (h : Hand) : List (Player × Nat) :=
  [(h.side, h.hole), (h.side, h.hole)]

/-- The cell that `Hand_can_lift` reads. -/
def Hand_can_lift_accesses (h : Hand) : List (Player × Nat) :=
  [(h.side, h.hole)]

/-- The cells that `Hand_can_switch_side` reads; the operands of `||` are
evaluated from the left until one holds. -/
def Hand_can_switch_side_accesses (h : Hand) : List (Player × Nat) :=
  if h.hole > H_RFKICHWA ∨ h.state.takata ≠ 0 then []
  else if h.state.board h.side h.hole ≤ 1 then [(h.side, h.hole)]
  else [(h.side, h.hole), (get_opponent h.side, get_opposing_hole h.hole)]

/-- The cell that `Hand_sow` increments. -/
def Hand_sow_accesses (h : Hand) : List (Player × Nat) :=
  [(h.side, h.hole)]

/-- The cells of the board that `start_move` accesses, in the order of the
accesses; `can_play_namua_special` reads the board only when the operands of
`&&` before the read hold. -/
def start_move_accesses (state : BaoState) (rules : BaoRules) (move : Move) :
    List (Player × Nat) :=
  if state.board state.player H_STORE ≠ 0 then
    let s1 := set_board state state.player H_STORE (u32_dec (state.board state.player H_STORE))
    let s2 := set_board s1 s1.player move.hole (u32_inc (s1.board s1.player move.hole))
    [(state.player, H_STORE), (state.player, H_STORE), (state.player, move.hole)]
      ++ (if s2.takata ≠ 0 ∧ move.hole = H_NYUMBA ∧ s2.nyumba s2.player ≠ 0 then
            [(s2.player, move.hole)] else [])
      ++ (if can_play_namua_special s2 rules move.hole then
            [(state.player, H_NYUMBA), (state.player, H_STORE)] else [])
  else
    (state.player, H_STORE) ::
      Hand_lift_accesses { state := state, side := state.player, hole := move.hole, nkhomo := 0,
                           dir := move.dir }

/-- The cells of the board that one pass through the body of the loop of
`exec_move` accesses, in the order of the accesses. -/
def exec_step_accesses (hand : Hand) (rules : BaoRules) : List (Player × Nat) :=
  if hand.nkhomo = 0 then
    Hand_can_switch_side_accesses hand ++
    (if Hand_can_switch_side hand rules then Hand_lift_accesses (Hand_switch_side hand)
     else
      Hand_can_lift_accesses hand ++
      (if Hand_can_lift hand rules then
        if hand.hole = H_NYUMBA ∧ hand.state.nyumba hand.side ≠ 0 then
          (hand.side, H_STORE) ::
            (if hand.state.board hand.side H_STORE ≠ 0 then [] else Hand_lift_accesses hand)
        else
          (hand.side, H_STORE) ::
            (if hand.state.board hand.side H_STORE = 0
                ∧ hand.state.takata ≠ 0
                ∧ hand.hole = hand.state.trapped_hole
                ∧ rules.has_mtaji_moja_trap ≠ 0 then []
             else Hand_lift_accesses hand)
       else []))
  else
    if hand.side ≠ hand.state.player then
      Hand_sow_accesses (Hand_reset (Hand_switch_side hand))
    else
      Hand_sow_accesses (Hand_step hand)

/-- The cells of the board that the loop of `exec_move` accesses in a run of at
most `n` passes. -/
def exec_loop_accesses (rules : BaoRules) : Nat → Hand → List (Player × Nat)
  | 0, _ => []
  | n + 1, hand =>
    exec_step_accesses hand rules ++
      (match exec_step hand rules with
       | (_, some _) => []
       | (h1, none) => exec_loop_accesses rules n h1)

/-- The cells of the board that a call of `exec_move` accesses. -/
def exec_move_accesses (hand : Hand) (rules : BaoRules) (steps : Int) : List (Player × Nat) :=
  exec_loop_accesses rules steps.toNat hand

/-! ## Categories of moves and sample positions -/

/-- Both directions at each hole of a list, left before right. -/
def all_pairs : List Nat → List (Nat × Int)
  | [] => []
  | h :: hs => (h, MXD_LEFT) :: (h, MXD_RIGHT) :: all_pairs hs

/-- The pairs (hole, direction) over `holes` that pass `test_move`, in the order of enumeration. -/
def passing (test_move : MoveTestFunc) (state : BaoState) (rules : BaoRules)
    (holes : List Nat) : List (Nat × Int) :=
  (all_pairs holes).filter (fun m => test_move state rules m.1 m.2)

/-- The first non-empty list of a list of lists, the empty list when there is none. -/
def first_nonempty : List (List (Nat × Int)) → List (Nat × Int)
  | [] => []
  | l :: ls => if l ≠ [] then l else first_nonempty ls

/-- The front row, holes 0 to 7. -/
def front_row : List Nat := [0, 1, 2, 3, 4, 5, 6, 7]

/-- The back row, holes 8 to 15. -/
def back_row : List Nat := [8, 9, 10, 11, 12, 13, 14, 15]

/-- The capture candidates of a state: the pairs over the holes `get_moves`
scans for captures that pass the capture test of the mover's stage. -/
def capture_candidates (s : BaoState) (r : BaoRules) : List (Nat × Int) :=
  if IN_NAMUA s s.player then passing test_namua_capture s r front_row
  else passing test_mtaji_capture s r (front_row ++ back_row)

/-- The categories after the captures, in the order of their priority. -/
def later_categories (s : BaoState) (r : BaoRules) : List (List (Nat × Int)) :=
  if IN_NAMUA s s.player then
    [passing test_namua_takata s r front_row,
     passing test_namua_takata_singleton s r front_row,
     passing test_namua_special s r [H_NYUMBA]]
  else
    [passing test_mtaji_takata s r front_row,
     passing test_mtaji_special s r [s.trapped_hole],
     passing test_mtaji_takata s r back_row]

/-- The capture test of the mover's stage. -/
def capture_test (s : BaoState) : MoveTestFunc :=
  if IN_NAMUA s s.player then test_namua_capture else test_mtaji_capture

/-- A board given by the two rows of 17 counts (holes 0 to 15, then the store). -/
def board_of (north south : List Nat) : Player → Nat → Nat := fun p h =>
  match p with
  | P_NORTH => north.getD h 0
  | P_SOUTH => south.getD h 0

/-- The rule set of the demo (`rules[1]` of `main.c`). -/
def demo_rules : BaoRules :=
  { board_setting := fun h => [0, 0, 0, 0, 8, 2, 2, 0, 0, 0, 0, 0, 0, 0, 0, 0, 20].getD h 0
    has_nyumba := 1
    has_mtaji_moja_trap := 1
    max_nkhomo_for_mtaji_capture := 16
    min_nkhomo_for_namua_special := 8
    max_move_exec_depth := 50 }

/-- First stage, south to move: south can capture at hole 2 and could sow at hole 0. -/
def namua_capture_state : BaoState :=
  { board := board_of [0, 0, 0, 0, 0, 1, 0, 0, 0, 0, 0, 0, 0, 0, 0, 0, 5]
                      [3, 0, 1, 0, 0, 0, 0, 0, 0, 0, 0, 0, 0, 0, 0, 0, 5]
    flags := 1, takata := 0, nyumba := fun _ => 0, trapped_hole := H_STORE, player := P_SOUTH }

/-- Second stage, south to move: hole 0 holds two seeds and lands on hole 2,
which faces a non-empty hole. -/
def mtaji_capture_state : BaoState :=
  { board := board_of [0, 0, 0, 0, 0, 1, 0, 0, 0, 0, 0, 0, 0, 0, 0, 0, 0]
                      [2, 0, 1, 0, 0, 0, 0, 0, 0, 0, 0, 0, 0, 0, 0, 0, 0]
    flags := 1, takata := 0, nyumba := fun _ => 0, trapped_hole := H_STORE, player := P_SOUTH }

/-- Second stage, south to move, no capture: a front-row hole and a back-row
hole hold two seeds each. -/
def mtaji_two_rows_state : BaoState :=
  { board := board_of [0, 0, 0, 0, 0, 0, 0, 0, 0, 0, 3, 0, 0, 0, 0, 0, 0]
                      [2, 0, 0, 0, 0, 0, 0, 0, 2, 0, 0, 0, 0, 0, 0, 0, 0]
    flags := 1, takata := 0, nyumba := fun _ => 0, trapped_hole := H_STORE, player := P_SOUTH }

/-- Second stage, south to move: the trapped hole `t` is the only hole of south
with more than one seed. -/
def mtaji_trapped_state (t : Nat) : BaoState :=
  { board := fun p h => if p = P_SOUTH ∧ h = t then 2 else
      board_of [0, 0, 0, 0, 0, 0, 0, 0, 0, 0, 3, 0, 0, 0, 0, 0, 0] [] p h
    flags := 1, takata := 0, nyumba := fun _ => 0, trapped_hole := t, player := P_SOUTH }

/-- First stage, south to move: the intact reserve hole holds one seed, the
rest of the front row is empty. -/
def namua_reserve_state : BaoState :=
  { board := board_of [0, 0, 0, 0, 0, 0, 0, 0, 0, 0, 3, 0, 0, 0, 0, 0, 5]
                      [0, 0, 0, 0, 1, 0, 0, 0, 0, 0, 0, 0, 0, 0, 0, 0, 5]
    flags := 1, takata := 0, nyumba := fun _ => 1, trapped_hole := H_STORE, player := P_SOUTH }

/-- The ordinary-sow condition of the second stage at hole `h`: more than one
seed, and not blocked by the trap (blocked: trap rule active, `h` is the trapped
hole, and `h` is not the mover's intact reserve hole). -/
def mtaji_sowable (s : BaoState) (r : BaoRules) (h : Nat) : Prop :=
  s.board s.player h > 1 ∧
    ¬ (r.has_mtaji_moja_trap ≠ 0 ∧ s.trapped_hole = h ∧
        ¬ (h = H_NYUMBA ∧ s.nyumba s.player ≠ 0))

/-- First stage, south to move: south captures at hole 0 and the captured seeds
end on its intact reserve hole. -/
def halting_state : BaoState :=
  { board := board_of [0, 0, 0, 0, 0, 0, 0, 5, 0, 0, 0, 0, 0, 0, 0, 0, 5]
                      [1, 0, 0, 0, 3, 0, 0, 0, 0, 0, 0, 0, 0, 0, 0, 0, 5]
    flags := 1, takata := 0, nyumba := fun _ => 1, trapped_hole := H_STORE, player := P_SOUTH }

/-- First stage, south to move with one seed left in its store: the intact
reserve hole holds seven seeds and the rest of its front row is empty. -/
def last_seed_state : BaoState :=
  { board := board_of [3, 0, 0, 0, 0, 0, 0, 0, 0, 0, 0, 0, 0, 0, 0, 0, 6]
                      [0, 0, 0, 0, 7, 0, 0, 0, 0, 0, 0, 0, 0, 0, 0, 0, 1]
    flags := 1, takata := 0, nyumba := fun _ => 1, trapped_hole := H_STORE, player := P_SOUTH }

/-- A hand of south holding one seed at hole 0 and sowing right; hole 1 holds
the largest `unsigned int`. -/
def full_hole_hand : Hand :=
  { state :=
      { board := board_of [0, 0, 0, 0, 0, 0, 0, 0, 0, 0, 0, 0, 0, 0, 0, 0, 0]
                          [0, 4294967295, 0, 0, 0, 0, 0, 0, 0, 0, 0, 0, 0, 0, 0, 0, 0]
        flags := 1, takata := 0, nyumba := fun _ => 0, trapped_hole := H_STORE,
        player := P_SOUTH }
    side := P_SOUTH, hole := 0, nkhomo := 1, dir := MXD_RIGHT }

/-! ## Children of a candidate, and further sample positions -/

/-- The first run of a candidate in `grow_tree`: `start_move` on the copy of the
parent's state, then `exec_move` with the rule's step bound. -/
def first_run (rules : BaoRules) (state : BaoState) (mv : Nat × Int) : Hand × MoveExecSts :=
  exec_move (start_move state rules ⟨mv.1, mv.2, 0⟩) rules rules.max_move_exec_depth

/-- The second run of a candidate that halted: `continue_move`, then `exec_move`
with the rule's step bound. -/
def second_run (rules : BaoRules) (state : BaoState) (mv : Nat × Int) : Hand × MoveExecSts :=
  exec_move (continue_move (first_run rules state mv).1) rules rules.max_move_exec_depth

/-- The children one pass of the loop of `grow_tree` stores for the candidate `mv`. -/
def candidate_children (rules : BaoRules) (parent : BaoTree) (mv : Nat × Int) : List BaoTree :=
  if (first_run rules parent.state mv).2 = MXS_HAULTED then
    if (second_run rules parent.state mv).2 = MXS_NOTDONE then
      [update_node (dup_node (set_state (dup_node parent) (first_run rules parent.state mv).1.state))
        mv rules 1]
    else
      [update_node (dup_node (set_state (dup_node parent) (first_run rules parent.state mv).1.state))
        mv rules 1,
       update_node (set_state (dup_node parent) (second_run rules parent.state mv).1.state)
        mv rules 0]
  else if (first_run rules parent.state mv).2 = MXS_NOTDONE then []
  else [update_node (set_state (dup_node parent) (first_run rules parent.state mv).1.state) mv rules 0]

/-- The children the loop of `grow_tree` stores for a list of candidates. -/
def all_children (rules : BaoRules) (parent : BaoTree) : List (Nat × Int) → List BaoTree
  | [] => []
  | mv :: rest => candidate_children rules parent mv ++ all_children rules parent rest

/-- First stage, south to move: south captures at hole 0, the five captured
seeds end on its intact reserve hole, which then holds 61 seeds. -/
def long_halting_state : BaoState :=
  { board := board_of [0, 0, 0, 0, 0, 0, 0, 5, 0, 0, 0, 0, 0, 0, 0, 0, 5]
                      [1, 0, 0, 0, 60, 0, 0, 0, 0, 0, 0, 0, 0, 0, 0, 0, 5]
    flags := 1, takata := 0, nyumba := fun _ => 1, trapped_hole := H_STORE, player := P_SOUTH }

/-- A node without children on `long_halting_state`. -/
def long_halting_root : BaoTree :=
  .mk ⟨H_STORE, 0, 0⟩ long_halting_state (some none) [] (some 0)

/-- Two moves equal in hole, direction and paused flag. -/
def same_move (m n : Move) : Prop :=
  m.hole = n.hole ∧ m.dir = n.dir ∧ m.nyumba_sown = n.nyumba_sown

/-- Second stage, south to move, trap rule active, no capture and no front-row
sow: the only moves are the sows of the back-row hole 8.  `flags` is the packed
flags byte. -/
def trap_probe_state (flags : Nat) : BaoState :=
  { board := board_of [0, 1, 0, 0, 0, 0, 0, 0, 0, 0, 0, 0, 3, 0, 0, 0, 0]
                      [1, 0, 0, 0, 0, 0, 0, 0, 2, 0, 0, 0, 0, 0, 0, 0, 0]
    flags := flags, takata := 0, nyumba := fun _ => 0, trapped_hole := H_STORE,
    player := P_SOUTH }

/-- A node without children on `trap_probe_state`. -/
def trap_probe_root (flags : Nat) : BaoTree :=
  .mk ⟨H_STORE, 0, 0⟩ (trap_probe_state flags) (some none) [] (some 0)

/-- Second stage, north to move with a single seed: north has no legal move. -/
def stalemate_state : BaoState :=
  { board := board_of [1, 0, 0, 0, 0, 0, 0, 0, 0, 0, 0, 0, 0, 0, 0, 0, 0]
                      [0, 0, 0, 0, 0, 0, 0, 0, 2, 0, 0, 0, 0, 0, 0, 0, 0]
    flags := 0, takata := 0, nyumba := fun _ => 0, trapped_hole := H_NONE, player := P_NORTH }

/-- A node as `dup_node` and `update_node` leave it (`parent` and `nchildren`
never written, no child stored) on `stalemate_state`. -/
def stalemate_child : BaoTree :=
  .mk ⟨8, MXD_RIGHT, 0⟩ stalemate_state none [] none

/-- A node with two children, for the moves (2, left) and (2, right). -/
def two_child_node : BaoTree :=
  .mk ⟨H_STORE, 0, 0⟩ namua_capture_state (some none)
    [.mk ⟨2, MXD_LEFT, 0⟩ namua_capture_state none [] none,
     .mk ⟨2, MXD_RIGHT, 0⟩ namua_capture_state none [] none]
    (some 2)

/-! ## Positions and reference definitions for growth bounds, captures and ties -/

/-- First stage, north to move, 64 seeds on the board: north can capture at
seven holes of its front row, its reserve hole is intact and faces an empty
hole. -/
def crowded_state : BaoState :=
  { board := board_of [1, 1, 1, 1, 6, 1, 1, 1, 0, 0, 0, 0, 0, 0, 0, 0, 10]
                      [4, 4, 4, 0, 5, 5, 5, 5, 0, 0, 0, 0, 0, 0, 0, 0, 9]
    flags := 0, takata := 0, nyumba := fun _ => 1, trapped_hole := H_NONE, player := P_NORTH }

/-- A node without children on `crowded_state`. -/
def crowded_root : BaoTree :=
  .mk ⟨H_STORE, 0, 0⟩ crowded_state (some none) [] (some 0)

/-- The hole that receives the first captured seed and the direction of the
sowing that follows, after a capture made from the mover's front-row hole `h`
by a hand of direction `dir`: hole 0 and right for `h ≤ 1`, hole 7 and left
for `h ≥ 6`, else hole 0 for a hand sowing right and hole 7 otherwise, the
direction kept. -/
def reset_anchor (h : Nat) (dir : Int) : Nat × Int :=
  if h ≤ 1 then (0, MXD_RIGHT)
  else if h ≥ 6 then (7, MXD_LEFT)
  else if dir = MXD_RIGHT then (0, dir)
  else (7, dir)

/-- The hole reached from `start` by `j` steps of one hole in the direction
`dir`, around the 16 holes of a side. -/
def hole_after (start : Nat) (dir : Int) (j : Nat) : Nat :=
  if dir = MXD_RIGHT then (start + j) % 16 else (start + 15 * j) % 16

/-- The hand of south on `halting_state` after the first step of its move
(0, right): it has captured the five seeds of north's hole 7. -/
def captured_hand : Hand :=
  (exec_step (start_move halting_state demo_rules ⟨0, MXD_RIGHT, 0⟩) demo_rules).1

/-- First stage, south to move: south captures at hole 2, to the left or to
the right; either way north is left with the single seed of its hole 0 and a
legal move. -/
def tie_state : BaoState :=
  { board := board_of [1, 0, 0, 0, 0, 1, 0, 0, 0, 0, 0, 0, 0, 0, 0, 0, 5]
                      [3, 0, 1, 0, 0, 0, 0, 0, 0, 0, 0, 0, 0, 0, 0, 0, 5]
    flags := 1, takata := 0, nyumba := fun _ => 0, trapped_hole := H_STORE, player := P_SOUTH }

/-- A node without children on `tie_state`. -/
def tie_root : BaoTree :=
  .mk ⟨H_STORE, 0, 0⟩ tie_state (some none) [] (some 0)

/-- The enumerator `get_moves` with the third pass of the first stage (the
pass of `test_namua_takata_singleton`) removed. -/
def get_moves_without_singleton (bufsz : Int) (state : BaoState) (rules : BaoRules) :
    List (Nat × Int) × BaoState :=
  if IN_NAMUA state state.player then
    let m1 := get_moves_bak bufsz state rules H_LFKICHWA H_RFKICHWA test_namua_capture
    if m1.length ≠ 0 then (m1, state)
    else
      let state1 := { state with takata := 1 }
      let m2 := get_moves_bak bufsz state1 rules H_LFKICHWA H_RFKICHWA test_namua_takata
      if m2.length ≠ 0 then (m2, state1)
      else
        let m4 := get_moves_bak bufsz state1 rules H_NYUMBA H_NYUMBA test_namua_special
        if m4.length = 0 then (m4, { state1 with takata := 0 })
        else (m4, state1)
  else
    let m1 := get_moves_bak bufsz state rules H_LFKICHWA H_LBKICHWA test_mtaji_capture
    if m1.length ≠ 0 then (m1, state)
    else
      let state1 := { state with takata := 1 }
      let m2 := get_moves_bak bufsz state1 rules H_LFKICHWA H_RFKICHWA test_mtaji_takata
      if m2.length ≠ 0 then (m2, state1)
      else
        let m3 := get_moves_bak bufsz state1 rules state1.trapped_hole state1.trapped_hole
          test_mtaji_special
        if m3.length ≠ 0 then (m3, state1)
        else
          let m4 := get_moves_bak bufsz state1 rules H_RBKICHWA H_LBKICHWA test_mtaji_takata
          if m4.length = 0 then (m4, { state1 with takata := 0 })
          else (m4, state1)

/-! ## Runs that stay inside the board and the array of children -/

/-- The read of `board[player][trapped_hole]` by `test_mtaji_special` is inside
the board whenever `get_moves` comes to it.  `get_moves` calls
`test_mtaji_special` only in the second stage, after the capture pass and the
front-row pass of `test_mtaji_takata` have found no move; a side of the board
has the entries 0 to 16.  On the states that satisfy this `get_moves` of the
embedding, whose board is a total function, does what the C function does. -/
def trap_read_in_bounds (s : BaoState) (r : BaoRules) : Prop :=
  IN_NAMUA s s.player = true ∨
  get_moves_bak MAXTRANS s r H_LFKICHWA H_LBKICHWA test_mtaji_capture ≠ [] ∨
  get_moves_bak MAXTRANS s r H_LFKICHWA H_RFKICHWA test_mtaji_takata ≠ [] ∨
  s.trapped_hole ≤ H_STORE

instance trap_read_in_bounds_dec (s : BaoState) (r : BaoRules) :
    Decidable (trap_read_in_bounds s r) := by
  unfold trap_read_in_bounds
  infer_instance

/-- A call of `grow_tree` on a node without children stays inside the board and
inside the `children` array: the read of the trapped hole is in bounds and the
loop stores at most `MAXTRANS` children. -/
def grow_tree_in_bounds (parent : BaoTree) (rules : BaoRules) : Prop :=
  trap_read_in_bounds parent.state rules ∧
  (grow_tree_loop rules (set_state parent (get_moves MAXTRANS parent.state rules).2)
      (get_moves MAXTRANS parent.state rules).1 []).length ≤ MAXTRANS.toNat

instance grow_tree_in_bounds_dec (parent : BaoTree) (rules : BaoRules) :
    Decidable (grow_tree_in_bounds parent rules) := by
  unfold grow_tree_in_bounds
  infer_instance

/-! ## The enumerator -/

theorem passing_cons (t : MoveTestFunc) (s : BaoState) (r : BaoRules) (h : Nat) (hs : List Nat) :
    passing t s r (h :: hs) =
      (if t s r h MXD_LEFT then [(h, MXD_LEFT)] else []) ++
      ((if t s r h MXD_RIGHT then [(h, MXD_RIGHT)] else []) ++ passing t s r hs) := by
  unfold passing
  simp only [all_pairs, List.filter_cons]
  cases t s r h MXD_LEFT <;> cases t s r h MXD_RIGHT <;> simp

theorem passing_length_le (t : MoveTestFunc) (s : BaoState) (r : BaoRules) (hs : List Nat) :
    (passing t s r hs).length ≤ 2 * hs.length := by
  induction hs with
  | nil => simp [passing, all_pairs]
  | cons h hs ih =>
    rw [passing_cons]
    cases t s r h MXD_LEFT <;> cases t s r h MXD_RIGHT <;> simp <;> omega

theorem get_moves_bak_loop_eq (bufsz : Int) (s : BaoState) (r : BaoRules) (t : MoveTestFunc) :
    ∀ (hs : List Nat) (buf : List (Nat × Int)),
      ((buf.length + (passing t s r hs).length : Nat) : Int) ≤ bufsz →
      get_moves_bak_loop bufsz s r t hs buf = buf ++ passing t s r hs := by
  intro hs
  induction hs with
  | nil => intro buf _; simp [get_moves_bak_loop, passing, all_pairs]
  | cons h hs ih =>
    intro buf hlen
    rw [passing_cons] at hlen ⊢
    unfold get_moves_bak_loop
    cases hL : t s r h MXD_LEFT <;> cases hR : t s r h MXD_RIGHT
    · simp only [hL, hR] at hlen ⊢
      simp at hlen ⊢
      exact ih buf (by simpa using hlen)
    · simp only [hL, hR] at hlen ⊢
      simp at hlen ⊢
      have hne : ¬ ((buf.length : Int) = bufsz) := by omega
      simp [hne]
      rw [ih (buf ++ [(h, MXD_RIGHT)]) (by simp; omega)]
      simp
    · simp only [hL, hR] at hlen ⊢
      simp at hlen ⊢
      have hne : ¬ ((buf.length : Int) = bufsz) := by omega
      simp [hne]
      rw [ih (buf ++ [(h, MXD_LEFT)]) (by simp; omega)]
      simp
    · simp only [hL, hR] at hlen ⊢
      simp at hlen ⊢
      have hne : ¬ ((buf.length : Int) = bufsz) := by omega
      have hne2 : ¬ ((buf.length : Int) + 1 = bufsz) := by omega
      simp [hne, hne2]
      rw [ih (buf ++ [(h, MXD_LEFT), (h, MXD_RIGHT)]) (by simp; omega)]
      simp

theorem hole_range_self (t : Nat) : hole_range t t = [t] := by
  simp [hole_range, hole_seq]

theorem get_moves_bak_eq (s : BaoState) (r : BaoRules) (t : MoveTestFunc) (start stop : Nat)
    (hlen : (passing t s r (hole_range start stop)).length ≤ 20) :
    get_moves_bak MAXTRANS s r start stop t = passing t s r (hole_range start stop) := by
  unfold get_moves_bak
  rw [get_moves_bak_loop_eq MAXTRANS s r t _ [] (by simp [MAXTRANS]; omega)]
  simp

theorem get_moves_bak_eq_of_short (s : BaoState) (r : BaoRules) (t : MoveTestFunc)
    (start stop : Nat) (hlen : (hole_range start stop).length ≤ 10) :
    get_moves_bak MAXTRANS s r start stop t = passing t s r (hole_range start stop) := by
  apply get_moves_bak_eq
  have := passing_length_le t s r (hole_range start stop)
  omega

theorem passing_test_mtaji_capture_back (s : BaoState) (r : BaoRules) :
    passing test_mtaji_capture s r back_row = [] := by
  simp [passing, back_row, all_pairs, test_mtaji_capture, IN_CAPTURE_RANGE, H_RFKICHWA,
    H_LFKICHWA]

theorem passing_append (t : MoveTestFunc) (s : BaoState) (r : BaoRules) (l1 l2 : List Nat) :
    passing t s r (l1 ++ l2) = passing t s r l1 ++ passing t s r l2 := by
  induction l1 with
  | nil => simp [passing, all_pairs]
  | cons h hs ih => simp [passing_cons, ih]

theorem get_moves_eq (s : BaoState) (r : BaoRules) :
    get_moves MAXTRANS s r =
      if capture_candidates s r ≠ [] then (capture_candidates s r, s)
      else (first_nonempty (later_categories s r),
            { s with takata := if first_nonempty (later_categories s r) ≠ [] then 1 else 0 }) := by
  have hfront : hole_range H_LFKICHWA H_RFKICHWA = front_row := by decide
  have hback : hole_range H_RBKICHWA H_LBKICHWA = back_row := by decide
  have hall : hole_range H_LFKICHWA H_LBKICHWA = front_row ++ back_row := by decide
  have hny : hole_range H_NYUMBA H_NYUMBA = [H_NYUMBA] := hole_range_self _
  have e1 : ∀ (t : MoveTestFunc) (s1 : BaoState),
      get_moves_bak MAXTRANS s1 r H_LFKICHWA H_RFKICHWA t = passing t s1 r front_row := by
    intro t s1
    rw [get_moves_bak_eq_of_short _ _ _ _ _ (by rw [hfront]; decide), hfront]
  have e2 : ∀ (t : MoveTestFunc) (s1 : BaoState),
      get_moves_bak MAXTRANS s1 r H_RBKICHWA H_LBKICHWA t = passing t s1 r back_row := by
    intro t s1
    rw [get_moves_bak_eq_of_short _ _ _ _ _ (by rw [hback]; decide), hback]
  have e3 : ∀ (t : MoveTestFunc) (s1 : BaoState) (h : Nat),
      get_moves_bak MAXTRANS s1 r h h t = passing t s1 r [h] := by
    intro t s1 h
    rw [get_moves_bak_eq_of_short _ _ _ _ _ (by rw [hole_range_self]; simp), hole_range_self]
  have e4 : get_moves_bak MAXTRANS s r H_LFKICHWA H_LBKICHWA test_mtaji_capture
      = passing test_mtaji_capture s r (front_row ++ back_row) := by
    rw [get_moves_bak_eq, hall]
    rw [hall, passing_append, passing_test_mtaji_capture_back, List.append_nil]
    have := passing_length_le test_mtaji_capture s r front_row
    have h8 : front_row.length = 8 := rfl
    omega
  have t1 : passing test_namua_takata { s with takata := 1 } r front_row
      = passing test_namua_takata s r front_row := rfl
  have t2 : passing test_namua_takata_singleton { s with takata := 1 } r front_row
      = passing test_namua_takata_singleton s r front_row := rfl
  have t3 : passing test_namua_special { s with takata := 1 } r [H_NYUMBA]
      = passing test_namua_special s r [H_NYUMBA] := rfl
  have t4 : passing test_mtaji_takata { s with takata := 1 } r front_row
      = passing test_mtaji_takata s r front_row := rfl
  have t5 : passing test_mtaji_special { s with takata := 1 } r [s.trapped_hole]
      = passing test_mtaji_special s r [s.trapped_hole] := rfl
  have t6 : passing test_mtaji_takata { s with takata := 1 } r back_row
      = passing test_mtaji_takata s r back_row := rfl
  unfold get_moves capture_candidates later_categories
  by_cases hst : IN_NAMUA s s.player = true
  · simp only [hst, if_true, e1, e3, t1, t2, t3, first_nonempty, List.length_eq_zero, ne_eq]
    by_cases h1 : passing test_namua_capture s r front_row = []
    · by_cases h2 : passing test_namua_takata s r front_row = []
      · by_cases h3 : passing test_namua_takata_singleton s r front_row = []
        · by_cases h4 : passing test_namua_special s r [H_NYUMBA] = []
          · simp [h1, h2, h3, h4]
          · simp [h1, h2, h3, h4]
        · simp [h1, h2, h3]
      · simp [h1, h2]
    · simp [h1]
  · simp only [hst, e1, e2, e3, e4, t4, t5, t6, first_nonempty, List.length_eq_zero, ne_eq]
    by_cases h1 : passing test_mtaji_capture s r (front_row ++ back_row) = []
    · by_cases h2 : passing test_mtaji_takata s r front_row = []
      · by_cases h3 : passing test_mtaji_special s r [s.trapped_hole] = []
        · by_cases h4 : passing test_mtaji_takata s r back_row = []
          · simp [h1, h2, h3, h4]
          · simp [h1, h2, h3, h4]
        · simp [h1, h2, h3]
      · simp [h1, h2]
    · simp [h1]

theorem mem_passing (t : MoveTestFunc) (s : BaoState) (r : BaoRules) (hs : List Nat)
    (h : Nat) (d : Int) :
    (h, d) ∈ passing t s r hs ↔
      h ∈ hs ∧ (d = MXD_LEFT ∨ d = MXD_RIGHT) ∧ t s r h d = true := by
  induction hs with
  | nil => simp [passing, all_pairs]
  | cons a as ih =>
    rw [passing_cons]
    simp only [List.mem_append, ih, List.mem_cons]
    constructor
    · rintro (h1 | h1 | h1)
      · split at h1
        · simp at h1; obtain ⟨rfl, rfl⟩ := h1; simp [*]
        · simp at h1
      · split at h1
        · simp at h1; obtain ⟨rfl, rfl⟩ := h1; simp [*]
        · simp at h1
      · exact ⟨Or.inr h1.1, h1.2⟩
    · rintro ⟨h1 | h1, h2 | h2, h3⟩
      · subst h1; subst h2; simp [h3]
      · subst h1; subst h2; simp [h3]
      · exact Or.inr (Or.inr ⟨h1, Or.inl h2, h3⟩)
      · exact Or.inr (Or.inr ⟨h1, Or.inr h2, h3⟩)

theorem mem_capture_candidates (s : BaoState) (r : BaoRules) (h : Nat) (d : Int) :
    (h, d) ∈ capture_candidates s r ↔
      h ≤ 15 ∧ (d = MXD_LEFT ∨ d = MXD_RIGHT) ∧ capture_test s s r h d = true := by
  unfold capture_candidates capture_test
  by_cases hst : IN_NAMUA s s.player = true
  · rw [if_pos hst, if_pos hst, mem_passing]
    constructor
    · rintro ⟨h1, h2, h3⟩
      refine ⟨?_, h2, h3⟩
      simp [front_row] at h1
      omega
    · rintro ⟨h1, h2, h3⟩
      refine ⟨?_, h2, h3⟩
      have : h ≤ 7 := by
        simp [test_namua_capture, can_capture, IN_CAPTURE_RANGE, H_RFKICHWA] at h3
        exact h3.1.1.2
      simp [front_row]
      omega
  · rw [if_neg hst, if_neg hst, mem_passing]
    constructor
    · rintro ⟨h1, h2, h3⟩
      refine ⟨?_, h2, h3⟩
      simp [front_row, back_row] at h1
      omega
    · rintro ⟨h1, h2, h3⟩
      refine ⟨?_, h2, h3⟩
      simp [front_row, back_row]
      omega

theorem test_mtaji_takata_iff (s : BaoState) (r : BaoRules) (h : Nat) (d : Int) :
    test_mtaji_takata s r h d = true ↔ mtaji_sowable s r h := by
  unfold test_mtaji_takata mtaji_sowable
  by_cases h1 : s.board s.player h ≤ 1
  · rw [if_pos h1]
    constructor
    · intro hf; cases hf
    · intro hf; omega
  · rw [if_neg h1]
    by_cases h2 : r.has_mtaji_moja_trap ≠ 0 ∧ s.trapped_hole = h
    · rw [if_pos h2]
      by_cases h3 : h = H_NYUMBA ∧ s.nyumba s.player ≠ 0
      · rw [if_pos h3]
        refine ⟨fun _ => ⟨by omega, fun hb => hb.2.2 h3⟩, fun _ => rfl⟩
      · rw [if_neg h3]
        refine ⟨fun hf => (by cases hf), fun hb => absurd ⟨h2.1, h2.2, h3⟩ hb.2⟩
    · rw [if_neg h2]
      refine ⟨fun _ => ⟨by omega, fun hb => h2 ⟨hb.1, hb.2.1⟩⟩, fun _ => rfl⟩

/-- C3: when some pair passes the capture test of the mover's stage, `get_moves`
returns exactly the capture candidates (the pairs over holes 0 to 15, in both
directions, that pass that test) and leaves the state as it was; in general,
on every state on which the read of the trapped hole stays inside the board
(`trap_read_in_bounds`), the list returned is the first non-empty category in
the order captures, ordinary sow, third category, last category (the empty
list when all four are empty). -/
theorem get_moves_capture_priority (s : BaoState) (r : BaoRules) :
    (capture_candidates s r ≠ [] →
        get_moves MAXTRANS s r = (capture_candidates s r, s)) ∧
    (trap_read_in_bounds s r →
      (get_moves MAXTRANS s r).1
        = first_nonempty (capture_candidates s r :: later_categories s r)) ∧
    (∀ h d, (h, d) ∈ capture_candidates s r ↔
        h ≤ 15 ∧ (d = MXD_LEFT ∨ d = MXD_RIGHT) ∧ capture_test s s r h d = true) := by
  refine ⟨?_, ?_, mem_capture_candidates s r⟩
  · intro hc
    rw [get_moves_eq, if_pos hc]
  · intro _
    rw [get_moves_eq]
    by_cases hc : capture_candidates s r ≠ []
    · simp [hc, first_nonempty]
    · simp [hc, first_nonempty]

theorem get_moves_capture_priority_witness :
    (capture_candidates namua_capture_state demo_rules ≠ [] ∧
      passing test_namua_takata namua_capture_state demo_rules front_row ≠ [] ∧
      (get_moves MAXTRANS namua_capture_state demo_rules).1 = [(2, MXD_LEFT), (2, MXD_RIGHT)] ∧
      (get_moves MAXTRANS namua_capture_state demo_rules).2.takata = 0) ∧
    (trap_read_in_bounds mtaji_two_rows_state demo_rules ∧
      (get_moves MAXTRANS mtaji_two_rows_state demo_rules).1
        = first_nonempty (capture_candidates mtaji_two_rows_state demo_rules
            :: later_categories mtaji_two_rows_state demo_rules)) := by
  have h := (get_moves_capture_priority namua_capture_state demo_rules).1 (by decide)
  refine ⟨?_, by decide,
    (get_moves_capture_priority mtaji_two_rows_state demo_rules).2.1 (by decide)⟩
  rw [h]
  decide

/-- C4 (failing input): south is to move in its first stage, its hole 2 and the
facing hole 5 of north are non-empty, its hole 5 is empty, and the flags byte
is even.  `can_capture` takes the mover from the flags byte, so `get_moves`
offers the capture at hole 5 and not at hole 2; with an odd flags byte and the
same explicit fields it offers hole 2. -/
theorem can_capture_reads_flags :
    namua_capture_state.player = P_SOUTH ∧
    namua_capture_state.board P_SOUTH H_STORE ≠ 0 ∧
    namua_capture_state.board P_SOUTH 2 ≠ 0 ∧
    namua_capture_state.board P_NORTH (7 - 2) ≠ 0 ∧
    namua_capture_state.board P_SOUTH 5 = 0 ∧
    (get_moves MAXTRANS { namua_capture_state with flags := 0 } demo_rules).1
      = [(5, MXD_LEFT), (5, MXD_RIGHT)] ∧
    (get_moves MAXTRANS { namua_capture_state with flags := 1 } demo_rules).1
      = [(2, MXD_LEFT), (2, MXD_RIGHT)] := by
  decide

/-- C5 (failing input): south is to move in its second stage with two seeds in
hole 0; sowing right lands on hole 2, which is non-empty and faces the non-empty
hole 5 of north.  With an even flags byte `can_capture` tests the landing hole
for north, no capture candidate is found and `get_moves` returns the ordinary
sows of hole 0 with the sow flag set; with an odd flags byte it returns the
capture (0, right). -/
theorem mtaji_capture_reads_flags :
    mtaji_capture_state.player = P_SOUTH ∧
    mtaji_capture_state.board P_SOUTH H_STORE = 0 ∧
    mtaji_capture_state.board P_SOUTH 0 = 2 ∧
    (2 : Int) ≤ demo_rules.max_nkhomo_for_mtaji_capture ∧
    mtaji_capture_state.board P_SOUTH ((0 + 2) % 16) ≠ 0 ∧
    mtaji_capture_state.board P_NORTH (7 - (0 + 2) % 16) ≠ 0 ∧
    capture_candidates { mtaji_capture_state with flags := 0 } demo_rules = [] ∧
    (get_moves MAXTRANS { mtaji_capture_state with flags := 0 } demo_rules).1
      = [(0, MXD_LEFT), (0, MXD_RIGHT)] ∧
    (get_moves MAXTRANS { mtaji_capture_state with flags := 0 } demo_rules).2.takata = 1 ∧
    (get_moves MAXTRANS { mtaji_capture_state with flags := 1 } demo_rules).1
      = [(0, MXD_RIGHT)] := by
  decide

/-- C6 (counterexample): second stage, no capture candidate, hole 0 of the front
row and hole 8 of the back row both pass the ordinary-sow test; `get_moves`
returns the two moves of hole 0 and no move of hole 8. -/
theorem mtaji_takata_skips_back_row :
    IN_NAMUA mtaji_two_rows_state mtaji_two_rows_state.player = false ∧
    capture_candidates mtaji_two_rows_state demo_rules = [] ∧
    test_mtaji_takata mtaji_two_rows_state demo_rules 0 MXD_LEFT = true ∧
    test_mtaji_takata mtaji_two_rows_state demo_rules 8 MXD_LEFT = true ∧
    (get_moves MAXTRANS mtaji_two_rows_state demo_rules).1 = [(0, MXD_LEFT), (0, MXD_RIGHT)] ∧
    (8, MXD_LEFT) ∉ (get_moves MAXTRANS mtaji_two_rows_state demo_rules).1 := by
  decide

/-- C6 (amended): in a second-stage state with no capture candidate, when some
front-row hole passes the ordinary-sow test, `get_moves` returns exactly the
front-row holes (0 to 7) that pass it, in both directions, and no back-row hole;
the back-row holes (8 to 15) that pass it are returned, in both directions, when
no front-row hole passes, the trapped hole is an entry of the board (at most
16, so that the trap-cancel test reads inside the board) and the trap-cancel
test fails.  A hole passes when it holds more than one seed and is not blocked
by the trap. -/
theorem get_moves_mtaji_takata (s : BaoState) (r : BaoRules)
    (hst : IN_NAMUA s s.player = false) (hcap : capture_candidates s r = []) :
    (passing test_mtaji_takata s r front_row ≠ [] →
      ∀ h d, (h, d) ∈ (get_moves MAXTRANS s r).1 ↔
        h ≤ 7 ∧ (d = MXD_LEFT ∨ d = MXD_RIGHT) ∧ mtaji_sowable s r h) ∧
    (passing test_mtaji_takata s r front_row = [] →
      s.trapped_hole ≤ H_STORE →
      passing test_mtaji_special s r [s.trapped_hole] = [] →
      ∀ h d, (h, d) ∈ (get_moves MAXTRANS s r).1 ↔
        (8 ≤ h ∧ h ≤ 15) ∧ (d = MXD_LEFT ∨ d = MXD_RIGHT) ∧ mtaji_sowable s r h) ∧
    (passing test_mtaji_takata s r front_row ≠ [] →
      (get_moves MAXTRANS s r).1 = passing test_mtaji_takata s r front_row) ∧
    (passing test_mtaji_takata s r front_row = [] →
      s.trapped_hole ≤ H_STORE →
      passing test_mtaji_special s r [s.trapped_hole] = [] →
      (get_moves MAXTRANS s r).1 = passing test_mtaji_takata s r back_row) := by
  have hl : later_categories s r =
      [passing test_mtaji_takata s r front_row,
       passing test_mtaji_special s r [s.trapped_hole],
       passing test_mtaji_takata s r back_row] := by
    unfold later_categories
    simp [hst]
  have e1 : passing test_mtaji_takata s r front_row ≠ [] →
      (get_moves MAXTRANS s r).1 = passing test_mtaji_takata s r front_row := by
    intro h1
    rw [get_moves_eq, hl]
    simp [hcap, first_nonempty, h1]
  have e2 : passing test_mtaji_takata s r front_row = [] →
      passing test_mtaji_special s r [s.trapped_hole] = [] →
      (get_moves MAXTRANS s r).1 = passing test_mtaji_takata s r back_row := by
    intro h1 h2
    rw [get_moves_eq, hl]
    simp [hcap, first_nonempty, h1, h2]
  refine ⟨?_, ?_, e1, fun h1 _ h2 => e2 h1 h2⟩
  · intro h1 h d
    rw [e1 h1, mem_passing, test_mtaji_takata_iff]
    simp [front_row]
    intro _ _
    omega
  · intro h1 _ h2 h d
    rw [e2 h1 h2, mem_passing, test_mtaji_takata_iff]
    simp [back_row]
    intro _ _
    omega

theorem get_moves_mtaji_takata_witness :
    (get_moves MAXTRANS mtaji_two_rows_state demo_rules).1
      = passing test_mtaji_takata mtaji_two_rows_state demo_rules front_row ∧
    (trap_probe_state 1).trapped_hole ≤ H_STORE ∧
    (get_moves MAXTRANS (trap_probe_state 1) demo_rules).1
      = passing test_mtaji_takata (trap_probe_state 1) demo_rules back_row :=
  ⟨(get_moves_mtaji_takata mtaji_two_rows_state demo_rules (by decide) (by decide)).2.2.1
      (by decide),
    by decide,
    (get_moves_mtaji_takata (trap_probe_state 1) demo_rules (by decide) (by decide)).2.2.2
      (by decide) (by decide) (by decide)⟩

/-- C7 (failing input): second stage, south to move, trap rule active, no
capture candidate; the trapped hole 3 is a front-row hole with two seeds and
every other hole of south is empty, so no ordinary sow is legal.
`test_mtaji_special` returns 0 as soon as the trapped hole is below 7, hence
`get_moves` returns no move at all and clears the sow flag.  The same position
with the trapped hole at 7 yields the two trap-cancel moves. -/
theorem trap_cancel_refused_below_seven :
    IN_NAMUA (mtaji_trapped_state 3) (mtaji_trapped_state 3).player = false ∧
    capture_candidates (mtaji_trapped_state 3) demo_rules = [] ∧
    passing test_mtaji_takata (mtaji_trapped_state 3) demo_rules front_row = [] ∧
    (mtaji_trapped_state 3).trapped_hole = 3 ∧
    (mtaji_trapped_state 3).board P_SOUTH 3 = 2 ∧
    (∀ i ∈ front_row, i ≠ 3 → (mtaji_trapped_state 3).board P_SOUTH i ≤ 1) ∧
    test_mtaji_special (mtaji_trapped_state 3) demo_rules 3 MXD_LEFT = false ∧
    (get_moves MAXTRANS (mtaji_trapped_state 3) demo_rules).1 = [] ∧
    (get_moves MAXTRANS (mtaji_trapped_state 3) demo_rules).2.takata = 0 ∧
    (get_moves MAXTRANS (mtaji_trapped_state 7) demo_rules).1
      = [(7, MXD_LEFT), (7, MXD_RIGHT)] := by
  decide

/-- C8 (counterexample): first stage, no capture, no ordinary sow; the intact
reserve hole of the mover holds one seed and the rule asks for at least eight.
`get_moves` returns the two special moves at hole 4. -/
theorem namua_special_below_minimum :
    IN_NAMUA namua_reserve_state namua_reserve_state.player = true ∧
    capture_candidates namua_reserve_state demo_rules = [] ∧
    passing test_namua_takata namua_reserve_state demo_rules front_row = [] ∧
    passing test_namua_takata_singleton namua_reserve_state demo_rules front_row = [] ∧
    namua_reserve_state.board namua_reserve_state.player H_NYUMBA = 1 ∧
    int_to_u32 demo_rules.min_nkhomo_for_namua_special = 8 ∧
    (get_moves MAXTRANS namua_reserve_state demo_rules).1
      = [(H_NYUMBA, MXD_LEFT), (H_NYUMBA, MXD_RIGHT)] := by
  decide

/-- C8 (amended): in a first-stage state in which the captures and the two
ordinary-sow categories are empty, `get_moves` returns the two moves at the
reserve hole (hole 4, left then right) when the mover's reserve is intact and
the reserve hole is non-empty, and no move otherwise; the rule's minimum is not
consulted. -/
theorem get_moves_namua_special (s : BaoState) (r : BaoRules)
    (hst : IN_NAMUA s s.player = true) (hcap : capture_candidates s r = [])
    (h2 : passing test_namua_takata s r front_row = [])
    (h3 : passing test_namua_takata_singleton s r front_row = []) :
    (get_moves MAXTRANS s r).1 =
      if s.nyumba s.player ≠ 0 ∧ s.board s.player H_NYUMBA ≠ 0 then
        [(H_NYUMBA, MXD_LEFT), (H_NYUMBA, MXD_RIGHT)]
      else [] := by
  have hl : later_categories s r =
      [passing test_namua_takata s r front_row,
       passing test_namua_takata_singleton s r front_row,
       passing test_namua_special s r [H_NYUMBA]] := by
    unfold later_categories
    simp [hst]
  rw [get_moves_eq, hl, h2, h3]
  by_cases hc : s.nyumba s.player ≠ 0 ∧ s.board s.player H_NYUMBA ≠ 0
  · rw [if_pos hc]
    have ht : ∀ d, test_namua_special s r H_NYUMBA d = true := by
      intro d
      simp [test_namua_special, hc.1, hc.2]
    simp [hcap, first_nonempty, passing, all_pairs, ht]
  · rw [if_neg hc]
    have ht : ∀ d, test_namua_special s r H_NYUMBA d = false := by
      intro d
      simp only [test_namua_special]
      by_cases hn : s.nyumba s.player = 0
      · simp [hn]
      · have hb : s.board s.player H_NYUMBA = 0 := by
          by_contra hb
          exact hc ⟨hn, hb⟩
        simp [hb]
    simp [hcap, first_nonempty, passing, all_pairs, ht]

theorem get_moves_namua_special_witness :
    (get_moves MAXTRANS namua_reserve_state demo_rules).1 =
      if namua_reserve_state.nyumba namua_reserve_state.player ≠ 0
          ∧ namua_reserve_state.board namua_reserve_state.player H_NYUMBA ≠ 0 then
        [(H_NYUMBA, MXD_LEFT), (H_NYUMBA, MXD_RIGHT)]
      else [] :=
  get_moves_namua_special namua_reserve_state demo_rules (by decide) (by decide) (by decide)
    (by decide)

theorem side_seeds_eq (s : BaoState) (p : Player) :
    side_seeds s p = s.board p 0 + (s.board p 1 + (s.board p 2 + (s.board p 3 + (s.board p 4 +
      (s.board p 5 + (s.board p 6 + (s.board p 7 + (s.board p 8 + (s.board p 9 +
      (s.board p 10 + (s.board p 11 + (s.board p 12 + (s.board p 13 + (s.board p 14 +
      (s.board p 15 + s.board p 16))))))))))))))) := rfl

theorem total_seeds_set_board (s : BaoState) (p : Player) (h v : Nat) (hh : h ≤ 16) :
    total_seeds (set_board s p h v) + s.board p h = total_seeds s + v := by
  unfold total_seeds
  simp only [side_seeds_eq]
  cases p <;> interval_cases h <;> simp [set_board] <;> omega

theorem board_le_total_seeds (s : BaoState) (p : Player) (h : Nat) (hh : h ≤ 16) :
    s.board p h ≤ total_seeds s := by
  have := total_seeds_set_board s p h 0 hh
  omega

theorem get_opposing_hole_front (h : Nat) (hh : h ≤ 7) : get_opposing_hole h = 7 - h := by
  unfold get_opposing_hole u32_sub u32_add U32 H_RFKICHWA H_LFKICHWA H_STORE
  simp only [Nat.not_lt_zero, if_false]
  omega

theorem seeds_in_play_lift (h : Hand) (hh : h.hole ≤ 16) (hq : seeds_in_play h < U32) :
    seeds_in_play (Hand_lift h) = seeds_in_play h ∧ (Hand_lift h).hole = h.hole := by
  have h1 := total_seeds_set_board h.state h.side h.hole 0 hh
  have h2 := board_le_total_seeds h.state h.side h.hole hh
  unfold seeds_in_play at hq ⊢
  simp only [Hand_lift, u32_add]
  rw [Nat.mod_eq_of_lt (by omega)]
  exact ⟨by omega, trivial⟩

theorem seeds_in_play_sow (h : Hand) (hh : h.hole ≤ 16) (hq : seeds_in_play h < U32)
    (hn : h.nkhomo ≠ 0) :
    seeds_in_play (Hand_sow h) = seeds_in_play h ∧ (Hand_sow h).hole = h.hole := by
  have h1 := total_seeds_set_board h.state h.side h.hole
    (u32_inc (h.state.board h.side h.hole)) hh
  have h2 := board_le_total_seeds h.state h.side h.hole hh
  unfold seeds_in_play at hq ⊢
  simp only [Hand_sow] at h1 ⊢
  have e1 : u32_inc (h.state.board h.side h.hole) = h.state.board h.side h.hole + 1 := by
    unfold u32_inc
    exact Nat.mod_eq_of_lt (by omega)
  have e2 : u32_dec h.nkhomo = h.nkhomo - 1 := by
    unfold u32_dec U32 at *
    omega
  rw [e1] at h1 ⊢
  rw [e2]
  exact ⟨by omega, trivial⟩

theorem Hand_step_hole_le (h : Hand) (hh : h.hole ≤ 16) : (Hand_step h).hole ≤ 16 := by
  unfold Hand_step
  split
  · split
    · simp [H_LFKICHWA]
    · simp only [H_LBKICHWA] at *; omega
  · split
    · split
      · simp [H_LBKICHWA]
      · simp only [H_LBKICHWA] at *; omega
    · exact hh

theorem Hand_reset_hole_le (h : Hand) : (Hand_reset h).hole ≤ 16 := by
  unfold Hand_reset
  split
  · simp [H_LFKICHWA]
  · split
    · simp [H_RFKICHWA]
    · split
      · simp [H_LFKICHWA]
      · simp [H_RFKICHWA]

theorem exec_step_seeds_in_play (hand : Hand) (rules : BaoRules) (hh : hand.hole ≤ 16)
    (hq : seeds_in_play hand < U32) :
    seeds_in_play (exec_step hand rules).1 = seeds_in_play hand ∧
      (exec_step hand rules).1.hole ≤ 16 := by
  unfold exec_step
  by_cases hn : hand.nkhomo = 0
  · rw [if_pos hn]
    by_cases hsw : Hand_can_switch_side hand rules = true
    · rw [if_pos hsw]
      have hfront : hand.hole ≤ 7 := by
        unfold Hand_can_switch_side at hsw
        by_contra hc
        simp only [H_RFKICHWA] at hsw
        rw [if_pos (Or.inl (by omega))] at hsw
        cases hsw
      have hsh : (Hand_switch_side hand).hole ≤ 16 := by
        simp only [Hand_switch_side, get_opposing_hole_front _ hfront]
        omega
      have hsq : seeds_in_play (Hand_switch_side hand) = seeds_in_play hand := rfl
      have hl := seeds_in_play_lift (Hand_switch_side hand) hsh (by rw [hsq]; exact hq)
      dsimp only
      split
      · exact ⟨by rw [← hsq, ← hl.1]; rfl, by show (Hand_lift (Hand_switch_side hand)).hole ≤ 16; rw [hl.2]; exact hsh⟩
      · exact ⟨by rw [← hsq, ← hl.1], by rw [hl.2]; exact hsh⟩
    · rw [if_neg hsw]
      have hl := seeds_in_play_lift hand hh hq
      dsimp only
      split
      · split
        · split
          · split
            · exact ⟨rfl, hh⟩
            · exact ⟨rfl, hh⟩
          · exact ⟨by rw [← hl.1]; rfl, by show (Hand_lift hand).hole ≤ 16; rw [hl.2]; exact hh⟩
        · split
          · exact ⟨rfl, hh⟩
          · exact ⟨hl.1, by rw [hl.2]; exact hh⟩
      · exact ⟨rfl, hh⟩
  · rw [if_neg hn]
    split
    · have hr := Hand_reset_hole_le (Hand_switch_side hand)
      have hq2 : seeds_in_play (Hand_reset (Hand_switch_side hand)) = seeds_in_play hand := by
        unfold Hand_reset seeds_in_play
        split
        · simp only [Hand_switch_side]
        · split
          · simp only [Hand_switch_side]
          · split <;> simp only [Hand_switch_side]
      have hn2 : (Hand_reset (Hand_switch_side hand)).nkhomo ≠ 0 := by
        unfold Hand_reset
        split
        · exact hn
        · split
          · exact hn
          · split <;> exact hn
      have hs := seeds_in_play_sow _ hr (by rw [hq2]; exact hq) hn2
      exact ⟨by rw [hs.1, hq2], by rw [hs.2]; exact hr⟩
    · have hr := Hand_step_hole_le hand hh
      have hq2 : seeds_in_play (Hand_step hand) = seeds_in_play hand := by
        unfold Hand_step seeds_in_play
        split
        · split <;> simp only
        · split
          · split <;> simp only
          · simp only
      have hn2 : (Hand_step hand).nkhomo ≠ 0 := by
        unfold Hand_step
        split
        · split <;> exact hn
        · split
          · split <;> exact hn
          · exact hn
      have hs := seeds_in_play_sow _ hr (by rw [hq2]; exact hq) hn2
      exact ⟨by rw [hs.1, hq2], by rw [hs.2]; exact hr⟩

theorem exec_loop_zero (rules : BaoRules) (hand : Hand) :
    exec_loop rules 0 hand = (hand, MXS_NOTDONE) := rfl

theorem exec_loop_succ_none (rules : BaoRules) (n : Nat) (hand h1 : Hand)
    (hs : exec_step hand rules = (h1, none)) :
    exec_loop rules (n + 1) hand = exec_loop rules n h1 := by
  simp only [exec_loop, hs]

theorem exec_loop_succ_some (rules : BaoRules) (n : Nat) (hand h1 : Hand) (sts : MoveExecSts)
    (hs : exec_step hand rules = (h1, some sts)) :
    exec_loop rules (n + 1) hand = (h1, sts) := by
  simp only [exec_loop, hs]

theorem exec_loop_seeds_in_play (rules : BaoRules) :
    ∀ (n : Nat) (hand : Hand), hand.hole ≤ 16 → seeds_in_play hand < U32 →
      seeds_in_play (exec_loop rules n hand).1 = seeds_in_play hand ∧
        (exec_loop rules n hand).1.hole ≤ 16 := by
  intro n
  induction n with
  | zero => intro hand hh _; exact ⟨rfl, hh⟩
  | succ n ih =>
    intro hand hh hq
    have hs := exec_step_seeds_in_play hand rules hh hq
    rcases hst : exec_step hand rules with ⟨h1, _ | sts⟩
    · rw [hst] at hs
      rw [exec_loop_succ_none rules n hand h1 hst]
      have := ih h1 hs.2 (by rw [hs.1]; exact hq)
      exact ⟨by rw [this.1, hs.1], this.2⟩
    · rw [hst] at hs
      rw [exec_loop_succ_some rules n hand h1 sts hst]
      exact hs

theorem board_u32_set_board (s : BaoState) (p : Player) (h v : Nat) (hs : board_u32 s)
    (hv : v < U32) : board_u32 (set_board s p h v) := by
  intro i hi
  have := hs i hi
  cases p <;> simp only [set_board] <;> constructor <;> split <;> simp_all

theorem u32_inc_lt (x : Nat) : u32_inc x < U32 := Nat.mod_lt _ (by decide)

theorem u32_dec_lt (x : Nat) : u32_dec x < U32 := Nat.mod_lt _ (by decide)

theorem get_opponent_ne (p q : Player) (h : p ≠ q) : get_opponent p = q := by
  cases p <;> cases q <;> simp_all [get_opponent]

theorem board_u32_lt (s : BaoState) (hs : board_u32 s) (p : Player) (h : Nat) (hh : h ≤ 16) :
    s.board p h < U32 := by
  have := hs h (by unfold NHOLES; omega)
  cases p
  · exact this.1
  · exact this.2

theorem start_move_hand_ok (s : BaoState) (r : BaoRules) (m : Move) (hs : board_u32 s) :
    hand_ok (start_move s r m) := by
  unfold start_move
  split
  · dsimp only
    split
    · refine ⟨Or.inl rfl, ?_⟩
      apply board_u32_set_board _ _ _ _ _ (u32_dec_lt _)
      apply board_u32_set_board _ _ _ _ _ (u32_dec_lt _)
      apply board_u32_set_board _ _ _ _ _ (u32_inc_lt _)
      exact board_u32_set_board _ _ _ _ hs (u32_dec_lt _)
    · refine ⟨Or.inl rfl, ?_⟩
      apply board_u32_set_board _ _ _ _ _ (u32_inc_lt _)
      exact board_u32_set_board _ _ _ _ hs (u32_dec_lt _)
  · dsimp only
    split
    · exact ⟨Or.inl rfl, board_u32_set_board _ _ _ _ hs (by decide)⟩
    · exact ⟨Or.inl rfl, board_u32_set_board _ _ _ _ hs (by decide)⟩

theorem exec_step_hand_ok (hand : Hand) (rules : BaoRules) (hk : hand_ok hand) :
    hand_ok (exec_step hand rules).1 ∧
    (exec_step hand rules).1.state.player = hand.state.player ∧
    (hand.state.nyumba hand.state.player = 0 →
      (exec_step hand rules).1.state.nyumba hand.state.player = 0) ∧
    ((exec_step hand rules).2 = some MXS_HAULTED →
      hand.state.nyumba hand.state.player ≠ 0 ∧ (exec_step hand rules).1 = hand
        ∧ hand.nkhomo = 0 ∧ hand.side = hand.state.player) ∧
    (exec_step hand rules).2 ≠ some MXS_ERROR := by
  obtain ⟨hside, hb⟩ := hk
  unfold exec_step
  by_cases hn : hand.nkhomo = 0
  · have hsp : hand.side = hand.state.player := by
      rcases hside with h | h
      · exact h
      · exact absurd hn h
    rw [if_pos hn]
    by_cases hsw : Hand_can_switch_side hand rules = true
    · rw [if_pos hsw]
      have hsw2 := hsw
      unfold Hand_can_switch_side at hsw2
      have hc : ¬ (hand.hole > H_RFKICHWA ∨ hand.state.takata ≠ 0
          ∨ hand.state.board hand.side hand.hole ≤ 1
          ∨ hand.state.board (get_opponent hand.side) (get_opposing_hole hand.hole) = 0) := by
        intro hc
        rw [if_pos hc] at hsw2
        cases hsw2
      simp only [not_or, H_RFKICHWA] at hc
      have hfront : hand.hole ≤ 7 := by omega
      have hlt := board_u32_lt hand.state hb (get_opponent hand.side)
        (get_opposing_hole hand.hole) (by rw [get_opposing_hole_front _ hfront]; omega)
      have hnk : (Hand_lift (Hand_switch_side hand)).nkhomo ≠ 0 := by
        simp only [Hand_lift, Hand_switch_side, u32_add, hn, Nat.zero_add]
        rw [Nat.mod_eq_of_lt hlt]
        exact hc.2.2.2
      have hbl : board_u32 (Hand_lift (Hand_switch_side hand)).state :=
        board_u32_set_board _ _ _ _ hb (by decide)
      dsimp only
      split
      · refine ⟨⟨Or.inr hnk, hbl⟩, rfl, ?_, by simp, by simp⟩
        intro h0
        simp only [set_nyumba, Hand_lift, Hand_switch_side, set_board]
        split
        · rfl
        · exact h0
      · exact ⟨⟨Or.inr hnk, hbl⟩, rfl, fun h0 => h0, by simp, by simp⟩
    · rw [if_neg hsw]
      have hbl : board_u32 (Hand_lift hand).state :=
        board_u32_set_board _ _ _ _ hb (by decide)
      split
      · split
        · split
          · split
            · exact ⟨⟨hside, hb⟩, rfl, fun h0 => h0, by simp, by simp⟩
            · rename_i hny _ _
              refine ⟨⟨hside, hb⟩, rfl, fun h0 => h0, ?_, by simp⟩
              intro _
              exact ⟨by rw [← hsp]; exact hny.2, rfl, hn, hsp⟩
          · dsimp only
            refine ⟨⟨Or.inl hsp, hbl⟩, rfl, ?_, by simp, by simp⟩
            intro h0
            simp only [set_nyumba, Hand_lift, set_board]
            split
            · rfl
            · exact h0
        · split
          · exact ⟨⟨hside, hb⟩, rfl, fun h0 => h0, by simp, by simp⟩
          · exact ⟨⟨Or.inl hsp, hbl⟩, rfl, fun h0 => h0, by simp, by simp⟩
      · exact ⟨⟨hside, hb⟩, rfl, fun h0 => h0, by simp, by simp⟩
  · rw [if_neg hn]
    split
    · rename_i hne
      have e1 : (Hand_sow (Hand_reset (Hand_switch_side hand))).side = hand.state.player := by
        have : (Hand_reset (Hand_switch_side hand)).side = get_opponent hand.side := by
          unfold Hand_reset
          split
          · rfl
          · split
            · rfl
            · split <;> rfl
        simp only [Hand_sow, this]
        exact get_opponent_ne _ _ hne
      have e2 : (Hand_reset (Hand_switch_side hand)).state = hand.state := by
        unfold Hand_reset
        split
        · rfl
        · split
          · rfl
          · split <;> rfl
      refine ⟨⟨Or.inl ?_, ?_⟩, ?_, ?_, by simp, by simp⟩
      · rw [e1]; simp only [Hand_sow, e2, set_board]
      · simp only [Hand_sow, e2]
        exact board_u32_set_board _ _ _ _ hb (u32_inc_lt _)
      · simp only [Hand_sow, e2, set_board]
      · intro h0
        simp only [Hand_sow, e2, set_board]
        exact h0
    · rename_i heq
      have heq2 : hand.side = hand.state.player := by
        by_contra hc
        exact heq hc
      have e1 : (Hand_step hand).side = hand.side := by
        unfold Hand_step
        split
        · split <;> rfl
        · split
          · split <;> rfl
          · rfl
      have e2 : (Hand_step hand).state = hand.state := by
        unfold Hand_step
        split
        · split <;> rfl
        · split
          · split <;> rfl
          · rfl
      refine ⟨⟨Or.inl ?_, ?_⟩, ?_, ?_, by simp, by simp⟩
      · simp only [Hand_sow, e1, e2, set_board]; exact heq2
      · simp only [Hand_sow, e2]
        exact board_u32_set_board _ _ _ _ hb (u32_inc_lt _)
      · simp only [Hand_sow, e2, set_board]
      · intro h0
        simp only [Hand_sow, e2, set_board]
        exact h0

theorem exec_loop_hand_ok (rules : BaoRules) :
    ∀ (n : Nat) (hand : Hand), hand_ok hand →
      hand_ok (exec_loop rules n hand).1 ∧
      ((exec_loop rules n hand).2 = MXS_HAULTED →
        (exec_loop rules n hand).1.side = (exec_loop rules n hand).1.state.player) := by
  intro n
  induction n with
  | zero =>
    intro hand hk
    exact ⟨hk, fun h => by cases h⟩
  | succ n ih =>
    intro hand hk
    have hs := exec_step_hand_ok hand rules hk
    rcases hst : exec_step hand rules with ⟨h1, _ | sts⟩
    · rw [hst] at hs
      rw [exec_loop_succ_none rules n hand h1 hst]
      exact ih h1 hs.1
    · rw [hst] at hs
      rw [exec_loop_succ_some rules n hand h1 sts hst]
      refine ⟨hs.1, ?_⟩
      intro hh
      have := hs.2.2.2.1 (by simp only at hh; rw [hh])
      simp only at this ⊢
      rw [this.2.1]
      exact this.2.2.2

theorem exec_loop_hand_resumed (rules : BaoRules) :
    ∀ (n : Nat) (hand : Hand), hand_resumed hand →
      hand_resumed (exec_loop rules n hand).1 ∧
      ((exec_loop rules n hand).2 = MXS_DONE ∨ (exec_loop rules n hand).2 = MXS_NOTDONE) := by
  intro n
  induction n with
  | zero =>
    intro hand hk
    exact ⟨hk, Or.inr rfl⟩
  | succ n ih =>
    intro hand hk
    have hs := exec_step_hand_ok hand rules hk.2
    rcases hst : exec_step hand rules with ⟨h1, _ | sts⟩
    · rw [hst] at hs
      rw [exec_loop_succ_none rules n hand h1 hst]
      apply ih h1
      refine ⟨?_, hs.1⟩
      have := hs.2.2.1 hk.1
      simp only at this hs
      rw [hs.2.1]
      exact this
    · rw [hst] at hs
      rw [exec_loop_succ_some rules n hand h1 sts hst]
      refine ⟨⟨?_, hs.1⟩, ?_⟩
      · have := hs.2.2.1 hk.1
        simp only at this hs
        rw [hs.2.1]
        exact this
      · simp only at hs ⊢
        cases sts
        · exact absurd rfl hs.2.2.2.2
        · exact absurd hk.1 (hs.2.2.2.1 rfl).1
        · exact Or.inl rfl
        · exact Or.inr rfl

theorem exec_calls_hand_ok (rules : BaoRules) :
    ∀ (ks : List Int) (hand : Hand), hand_ok hand → hand_ok (exec_calls rules ks hand).1 := by
  intro ks
  induction ks with
  | nil => intro hand hk; exact hk
  | cons k ks ih =>
    intro hand hk
    simp only [exec_calls]
    exact ih _ (exec_loop_hand_ok rules _ hand hk).1

theorem exec_calls_hand_resumed (rules : BaoRules) :
    ∀ (ks : List Int) (hand : Hand), hand_resumed hand →
      ∀ sts ∈ (exec_calls rules ks hand).2, sts = MXS_DONE ∨ sts = MXS_NOTDONE := by
  intro ks
  induction ks with
  | nil => intro hand _ sts hm; simp [exec_calls] at hm
  | cons k ks ih =>
    intro hand hk sts hm
    have h1 := exec_loop_hand_resumed rules k.toNat hand hk
    simp only [exec_calls, List.mem_cons] at hm
    rcases hm with hm | hm
    · rw [hm]; exact h1.2
    · exact ih _ h1.1 sts hm

theorem continue_move_hand_resumed (hand : Hand) (hk : hand_ok hand)
    (hs : hand.side = hand.state.player) : hand_resumed (continue_move hand) := by
  refine ⟨?_, Or.inl hs, ?_⟩
  · simp only [continue_move, set_nyumba, hs]
    simp
  · exact hk.2

theorem exec_step_hole_le (hand : Hand) (rules : BaoRules) (hh : hand.hole ≤ 16) :
    (exec_step hand rules).1.hole ≤ 16 := by
  unfold exec_step
  by_cases hn : hand.nkhomo = 0
  · rw [if_pos hn]
    by_cases hsw : Hand_can_switch_side hand rules = true
    · rw [if_pos hsw]
      have hfront : hand.hole ≤ 7 := by
        unfold Hand_can_switch_side at hsw
        by_contra hc
        simp only [H_RFKICHWA] at hsw
        rw [if_pos (Or.inl (by omega))] at hsw
        cases hsw
      have hsh : (Hand_lift (Hand_switch_side hand)).hole ≤ 16 := by
        simp only [Hand_lift, Hand_switch_side, get_opposing_hole_front _ hfront]
        omega
      dsimp only
      split
      · exact hsh
      · exact hsh
    · rw [if_neg hsw]
      dsimp only
      split
      · split
        · split
          · split <;> exact hh
          · exact hh
        · split
          · exact hh
          · exact hh
      · exact hh
  · rw [if_neg hn]
    split
    · exact Hand_reset_hole_le (Hand_switch_side hand)
    · exact Hand_step_hole_le hand hh

theorem exec_loop_hole_le (rules : BaoRules) :
    ∀ (n : Nat) (hand : Hand), hand.hole ≤ 16 → (exec_loop rules n hand).1.hole ≤ 16 := by
  intro n
  induction n with
  | zero => intro hand hh; exact hh
  | succ n ih =>
    intro hand hh
    have hs := exec_step_hole_le hand rules hh
    rcases hst : exec_step hand rules with ⟨h1, _ | sts⟩
    · rw [hst] at hs
      rw [exec_loop_succ_none rules n hand h1 hst]
      exact ih h1 hs
    · rw [hst] at hs
      rw [exec_loop_succ_some rules n hand h1 sts hst]
      exact hs

theorem exec_calls_hole_le (rules : BaoRules) :
    ∀ (ks : List Int) (hand : Hand), hand.hole ≤ 16 → (exec_calls rules ks hand).1.hole ≤ 16 := by
  intro ks
  induction ks with
  | nil => intro hand hh; exact hh
  | cons k ks ih =>
    intro hand hh
    simp only [exec_calls]
    exact ih _ (exec_loop_hole_le rules _ hand hh)

theorem start_move_hole (s : BaoState) (r : BaoRules) (m : Move) :
    (start_move s r m).hole = m.hole := by
  unfold start_move
  split
  · dsimp only
    split <;> rfl
  · rfl

/-- C10: a hand made by `start_move` at a hole of the board array, on which a
call of `exec_move` (after any earlier calls) has returned halted is, once
`continue_move` has been called, never halted again: every later call of
`exec_move`, for any step counts, returns done or not-done; all along, the
hand stays at a hole of the board array. -/
theorem exec_move_halts_once (s : BaoState) (r : BaoRules) (m : Move) (hs : board_u32 s)
    (hm : m.hole ≤ 16) (pre : List Int) (n : Int) (ks : List Int)
    (hhalt : (exec_move (exec_calls r pre (start_move s r m)).1 r n).2 = MXS_HAULTED) :
    (∀ sts ∈ (exec_calls r ks
        (continue_move (exec_move (exec_calls r pre (start_move s r m)).1 r n).1)).2,
      sts = MXS_DONE ∨ sts = MXS_NOTDONE) ∧
    (exec_calls r ks
        (continue_move (exec_move (exec_calls r pre (start_move s r m)).1 r n).1)).1.hole
      ≤ 16 := by
  have h0 := exec_calls_hand_ok r pre _ (start_move_hand_ok s r m hs)
  have h1 := exec_loop_hand_ok r n.toNat _ h0
  refine ⟨?_, ?_⟩
  · apply exec_calls_hand_resumed
    exact continue_move_hand_resumed _ h1.1 (h1.2 hhalt)
  · apply exec_calls_hole_le
    show (exec_loop r n.toNat (exec_calls r pre (start_move s r m)).1).1.hole ≤ 16
    apply exec_loop_hole_le
    apply exec_calls_hole_le
    rw [start_move_hole]
    exact hm

theorem exec_move_halts_once_witness :
    (exec_move (exec_calls demo_rules [2]
        (start_move halting_state demo_rules ⟨0, MXD_RIGHT, 0⟩)).1 demo_rules 50).2 = MXS_HAULTED ∧
    MXS_HAULTED ∉ (exec_calls demo_rules [3, 50]
        (continue_move (exec_move (exec_calls demo_rules [2]
          (start_move halting_state demo_rules ⟨0, MXD_RIGHT, 0⟩)).1 demo_rules 50).1)).2 := by
  refine ⟨by decide, fun hm => ?_⟩
  have h := (exec_move_halts_once halting_state demo_rules ⟨0, MXD_RIGHT, 0⟩
    (by unfold board_u32; decide) (by decide) [2] 50 [3, 50] (by decide)).1 MXS_HAULTED hm
  rcases h with h | h <;> cases h

/-- C2 (counterexample): a hand holding one seed sows it into a hole that holds
4294967295 seeds; the count of the hole wraps to 0, and the seeds in play drop
from 4294967296 to 0 in one step. -/
theorem exec_move_sow_wraps :
    full_hole_hand.hole ≤ 15 ∧
    seeds_in_play full_hole_hand = 4294967296 ∧
    seeds_in_play (exec_move full_hole_hand demo_rules 1).1 = 0 ∧
    (exec_move full_hole_hand demo_rules 1).2 = MXS_NOTDONE := by
  decide

/-- C2 (amended): for every hand whose hole is inside the board array (0 to 16)
and whose seeds in play (all 17 holes of both sides plus the seeds held) are
fewer than 2 ^ 32, and every step count, `exec_move` leaves the seeds in play
unchanged; on such a hand a sow moves one seed from the hand to the board and a
lift moves the whole hole from the board to the hand. -/
theorem exec_move_seeds_in_play (hand : Hand) (rules : BaoRules) (steps : Int)
    (hh : hand.hole ≤ 16) (hq : seeds_in_play hand < U32) :
    seeds_in_play (exec_move hand rules steps).1 = seeds_in_play hand ∧
    (hand.nkhomo ≠ 0 →
      total_seeds (Hand_sow hand).state = total_seeds hand.state + 1 ∧
      (Hand_sow hand).nkhomo + 1 = hand.nkhomo) ∧
    (total_seeds (Hand_lift hand).state + hand.state.board hand.side hand.hole
        = total_seeds hand.state ∧
      (Hand_lift hand).nkhomo = hand.nkhomo + hand.state.board hand.side hand.hole) := by
  refine ⟨(exec_loop_seeds_in_play rules steps.toNat hand hh hq).1, ?_, ?_⟩
  · intro hn
    have h1 := total_seeds_set_board hand.state hand.side hand.hole
      (u32_inc (hand.state.board hand.side hand.hole)) hh
    have h2 := board_le_total_seeds hand.state hand.side hand.hole hh
    unfold seeds_in_play at hq
    have e1 : u32_inc (hand.state.board hand.side hand.hole)
        = hand.state.board hand.side hand.hole + 1 := by
      unfold u32_inc
      exact Nat.mod_eq_of_lt (by omega)
    have e2 : u32_dec hand.nkhomo = hand.nkhomo - 1 := by
      unfold u32_dec U32 at *
      omega
    simp only [Hand_sow]
    rw [e1] at h1 ⊢
    rw [e2]
    omega
  · have h1 := total_seeds_set_board hand.state hand.side hand.hole 0 hh
    have h2 := board_le_total_seeds hand.state hand.side hand.hole hh
    unfold seeds_in_play at hq
    simp only [Hand_lift, u32_add]
    rw [Nat.mod_eq_of_lt (by omega)]
    omega

theorem exec_move_seeds_in_play_witness :
    seeds_in_play (exec_move (start_move halting_state demo_rules ⟨0, MXD_RIGHT, 0⟩)
        demo_rules 50).1
      = seeds_in_play (start_move halting_state demo_rules ⟨0, MXD_RIGHT, 0⟩) :=
  (exec_move_seeds_in_play (start_move halting_state demo_rules ⟨0, MXD_RIGHT, 0⟩)
    demo_rules 50 (by decide) (by decide)).1

/-- C1 (failing input): south is to move with one seed in its store and seven in
its intact reserve hole, the rest of its front row empty; the board holds 17
seeds.  The only moves are the two special moves at hole 4; `start_move` takes
the store down twice, from 1 to 0 and from 0 to 4294967295, and both children of
`grow_tree` hold 4294967313 seeds. -/
theorem grow_tree_store_underflow :
    total_seeds last_seed_state = 17 ∧
    (get_moves MAXTRANS last_seed_state demo_rules).1
      = [(H_NYUMBA, MXD_LEFT), (H_NYUMBA, MXD_RIGHT)] ∧
    (start_move (get_moves MAXTRANS last_seed_state demo_rules).2 demo_rules
        ⟨H_NYUMBA, MXD_LEFT, 0⟩).state.board P_SOUTH H_STORE = 4294967295 ∧
    (grow_tree (BaoTree.mk ⟨H_STORE, 0, 0⟩ last_seed_state (some none) [] (some 0))
        demo_rules).map
        (fun g => g.2.children.map
          (fun c => (c.move, c.state.board P_SOUTH H_STORE, total_seeds c.state)))
      = some [(⟨H_NYUMBA, MXD_LEFT, 0⟩, 4294967295, 4294967313),
              (⟨H_NYUMBA, MXD_RIGHT, 0⟩, 4294967295, 4294967313)] := by
  decide


/-! ## Resuming a move -/

theorem exec_step_status (hand : Hand) (rules : BaoRules) :
    (exec_step hand rules).2 = none ∨ (exec_step hand rules).2 = some MXS_DONE
      ∨ (exec_step hand rules).2 = some MXS_HAULTED := by
  unfold exec_step
  split
  · split
    · dsimp only
      split <;> exact Or.inl rfl
    · split
      · split
        · split
          · split
            · exact Or.inr (Or.inl rfl)
            · exact Or.inr (Or.inr rfl)
          · exact Or.inl rfl
        · split
          · exact Or.inr (Or.inl rfl)
          · exact Or.inl rfl
      · exact Or.inr (Or.inl rfl)
  · split <;> exact Or.inl rfl

theorem exec_loop_add (rules : BaoRules) :
    ∀ (n m : Nat) (hand : Hand),
      exec_loop rules (n + m) hand =
        if (exec_loop rules n hand).2 = MXS_NOTDONE then
          exec_loop rules m (exec_loop rules n hand).1
        else exec_loop rules n hand := by
  intro n
  induction n with
  | zero =>
    intro m hand
    simp [exec_loop_zero]
  | succ n ih =>
    intro m hand
    rcases hst : exec_step hand rules with ⟨h1, _ | sts⟩
    · rw [show n + 1 + m = (n + m) + 1 by omega]
      rw [exec_loop_succ_none rules (n + m) hand h1 hst,
        exec_loop_succ_none rules n hand h1 hst]
      exact ih m h1
    · rw [show n + 1 + m = (n + m) + 1 by omega]
      rw [exec_loop_succ_some rules (n + m) hand h1 sts hst,
        exec_loop_succ_some rules n hand h1 sts hst]
      have hs := exec_step_status hand rules
      rw [hst] at hs
      have hne : sts ≠ MXS_NOTDONE := by
        rcases hs with hs | hs | hs
        · cases hs
        · simp only [Option.some.injEq] at hs; rw [hs]; decide
        · simp only [Option.some.injEq] at hs; rw [hs]; decide
      simp [hne]

/-- C11: for every hand and all step counts `n`, `m` that are not negative, if
`exec_move` with `n` steps returns not-done then a following `exec_move` with
`m` steps leaves the same hand (board included) and returns the same status as
one `exec_move` with `n + m` steps from the original hand; if `exec_move` with
`n` steps returns done or halted, `exec_move` with `n + m` steps returns that
status and leaves the same hand. -/
theorem exec_move_resume (hand : Hand) (rules : BaoRules) (n m : Int)
    (hn : 0 ≤ n) (hm : 0 ≤ m) :
    ((exec_move hand rules n).2 = MXS_NOTDONE →
      exec_move (exec_move hand rules n).1 rules m = exec_move hand rules (n + m)) ∧
    ((exec_move hand rules n).2 = MXS_DONE ∨ (exec_move hand rules n).2 = MXS_HAULTED →
      exec_move hand rules (n + m) = exec_move hand rules n) := by
  have hnm : (n + m).toNat = n.toNat + m.toNat := Int.toNat_add hn hm
  unfold exec_move
  rw [hnm, exec_loop_add]
  constructor
  · intro h
    rw [if_pos h]
  · intro h
    rw [if_neg]
    rcases h with h | h <;> rw [h] <;> decide

theorem exec_move_resume_witness :
    exec_move (exec_move (start_move halting_state demo_rules ⟨0, MXD_RIGHT, 0⟩)
        demo_rules 3).1 demo_rules 2
      = exec_move (start_move halting_state demo_rules ⟨0, MXD_RIGHT, 0⟩) demo_rules (3 + 2) :=
  (exec_move_resume (start_move halting_state demo_rules ⟨0, MXD_RIGHT, 0⟩) demo_rules 3 2
    (by decide) (by decide)).1 (by decide)

/-! ## Tree growth -/

theorem dup_node_state (node : BaoTree) : (dup_node node).state = node.state := rfl

theorem grow_tree_loop_eq (rules : BaoRules) (parent : BaoTree) :
    ∀ (mvs : List (Nat × Int)) (kids : List BaoTree),
      grow_tree_loop rules parent mvs kids = kids ++ all_children rules parent mvs := by
  intro mvs
  induction mvs with
  | nil => intro kids; simp [grow_tree_loop, all_children]
  | cons mv rest ih =>
    intro kids
    unfold grow_tree_loop
    simp only [all_children, candidate_children, first_run, second_run, dup_node_state]
    split
    · split
      · rw [ih]; simp
      · rw [ih]; simp
    · split
      · rw [ih]; simp
      · rw [ih]; simp

theorem mem_all_children (rules : BaoRules) (parent : BaoTree) (c : BaoTree) :
    ∀ (mvs : List (Nat × Int)),
      c ∈ all_children rules parent mvs ↔ ∃ mv ∈ mvs, c ∈ candidate_children rules parent mv := by
  intro mvs
  induction mvs with
  | nil => simp [all_children]
  | cons mv rest ih => simp [all_children, ih]

theorem grow_tree_eq (parent : BaoTree) (rules : BaoRules) (h0 : parent.nchildren = some 0) :
    grow_tree parent rules =
      some ((all_children rules (set_state parent (get_moves MAXTRANS parent.state rules).2)
              (get_moves MAXTRANS parent.state rules).1).length,
        BaoTree.mk parent.move (get_moves MAXTRANS parent.state rules).2 parent.parent
          (all_children rules (set_state parent (get_moves MAXTRANS parent.state rules).2)
              (get_moves MAXTRANS parent.state rules).1)
          (some (all_children rules (set_state parent (get_moves MAXTRANS parent.state rules).2)
              (get_moves MAXTRANS parent.state rules).1).length)) := by
  unfold grow_tree
  rw [h0]
  simp [grow_tree_loop_eq]

theorem exec_step_player (hand : Hand) (rules : BaoRules) :
    (exec_step hand rules).1.state.player = hand.state.player ∧
      (exec_step hand rules).1.state.takata = hand.state.takata := by
  have hs : ∀ h : Hand, (Hand_step h).state = h.state := by
    intro h
    unfold Hand_step
    split
    · split <;> rfl
    · split
      · split <;> rfl
      · rfl
  have hr : ∀ h : Hand, (Hand_reset h).state = h.state := by
    intro h
    unfold Hand_reset
    split
    · rfl
    · split
      · rfl
      · split <;> rfl
  unfold exec_step
  split
  · split
    · dsimp only
      split <;> exact ⟨rfl, rfl⟩
    · split
      · split
        · split
          · split <;> exact ⟨rfl, rfl⟩
          · exact ⟨rfl, rfl⟩
        · split <;> exact ⟨rfl, rfl⟩
      · exact ⟨rfl, rfl⟩
  · split
    · simp only [Hand_sow, set_board, hr]
      exact ⟨rfl, rfl⟩
    · simp only [Hand_sow, set_board, hs]
      exact ⟨trivial, trivial⟩

theorem exec_loop_player (rules : BaoRules) :
    ∀ (n : Nat) (hand : Hand),
      (exec_loop rules n hand).1.state.player = hand.state.player ∧
        (exec_loop rules n hand).1.state.takata = hand.state.takata := by
  intro n
  induction n with
  | zero => intro hand; exact ⟨rfl, rfl⟩
  | succ n ih =>
    intro hand
    have hs := exec_step_player hand rules
    rcases hst : exec_step hand rules with ⟨h1, _ | sts⟩
    · rw [hst] at hs
      rw [exec_loop_succ_none rules n hand h1 hst]
      have := ih h1
      exact ⟨by rw [this.1, hs.1], by rw [this.2, hs.2]⟩
    · rw [hst] at hs
      rw [exec_loop_succ_some rules n hand h1 sts hst]
      exact hs

theorem start_move_player (s : BaoState) (r : BaoRules) (m : Move) :
    (start_move s r m).state.player = s.player ∧
      (start_move s r m).state.takata = s.takata := by
  unfold start_move
  split
  · dsimp only
    split <;> exact ⟨rfl, rfl⟩
  · dsimp only
    split <;> exact ⟨rfl, rfl⟩

theorem first_run_player (rules : BaoRules) (s : BaoState) (mv : Nat × Int) :
    (first_run rules s mv).1.state.player = s.player ∧
      (first_run rules s mv).1.state.takata = s.takata := by
  unfold first_run exec_move
  have h1 := exec_loop_player rules rules.max_move_exec_depth.toNat
    (start_move s rules ⟨mv.1, mv.2, 0⟩)
  have h2 := start_move_player s rules ⟨mv.1, mv.2, 0⟩
  exact ⟨by rw [h1.1, h2.1], by rw [h1.2, h2.2]⟩

theorem second_run_player (rules : BaoRules) (s : BaoState) (mv : Nat × Int) :
    (second_run rules s mv).1.state.player = s.player ∧
      (second_run rules s mv).1.state.takata = s.takata := by
  unfold second_run exec_move
  have h1 := exec_loop_player rules rules.max_move_exec_depth.toNat
    (continue_move (first_run rules s mv).1)
  have h2 := first_run_player rules s mv
  exact ⟨by rw [h1.1]; exact h2.1, by rw [h1.2]; exact h2.2⟩

theorem prep_state_player (s : BaoState) (r : BaoRules) :
    (prep_state s r).takata = 0 ∧ (prep_state s r).player = get_opponent s.player := by
  unfold prep_state
  dsimp only
  split <;> exact ⟨rfl, rfl⟩

theorem get_moves_player (s : BaoState) (r : BaoRules) :
    (get_moves MAXTRANS s r).2.player = s.player := by
  rw [get_moves_eq]
  split <;> rfl

/-- The three outcomes of a candidate: its children carry its hole and
direction, a cleared sow flag and the opponent as the player to move. -/
theorem candidate_children_spec (rules : BaoRules) (parent : BaoTree) (mv : Nat × Int)
    (c : BaoTree) (hc : c ∈ candidate_children rules parent mv) :
    c.move.hole = mv.1 ∧ c.move.dir = mv.2 ∧ c.state.takata = 0 ∧
      c.state.player = get_opponent parent.state.player ∧
      (c.move.nyumba_sown = 1 ∨ c.move.nyumba_sown = 0) := by
  have h1 := first_run_player rules parent.state mv
  have h2 := second_run_player rules parent.state mv
  unfold candidate_children at hc
  split at hc
  · split at hc
    · simp only [List.mem_singleton] at hc
      subst hc
      refine ⟨rfl, rfl, (prep_state_player _ _).1, ?_, Or.inl rfl⟩
      show (prep_state _ _).player = _
      rw [(prep_state_player _ _).2]
      exact congrArg get_opponent h1.1
    · simp only [List.mem_cons, List.mem_singleton, List.not_mem_nil, or_false] at hc
      rcases hc with hc | hc
      · subst hc
        refine ⟨rfl, rfl, (prep_state_player _ _).1, ?_, Or.inl rfl⟩
        show (prep_state _ _).player = _
        rw [(prep_state_player _ _).2]
        exact congrArg get_opponent h1.1
      · subst hc
        refine ⟨rfl, rfl, (prep_state_player _ _).1, ?_, Or.inr rfl⟩
        show (prep_state _ _).player = _
        rw [(prep_state_player _ _).2]
        exact congrArg get_opponent h2.1
  · split at hc
    · simp at hc
    · simp only [List.mem_singleton] at hc
      subst hc
      refine ⟨rfl, rfl, (prep_state_player _ _).1, ?_, Or.inr rfl⟩
      show (prep_state _ _).player = _
      rw [(prep_state_player _ _).2]
      exact congrArg get_opponent h1.1

/-- C14: every child that `grow_tree` makes for a node without children has its
sow flag cleared, has the opponent of the parent's player to move as its player
to move, and records the hole and the direction of a candidate of `get_moves`
on the parent's state, the one whose pass through the loop made it. -/
theorem grow_tree_hands_over (parent : BaoTree) (rules : BaoRules) (n : Nat) (p1 : BaoTree)
    (h0 : parent.nchildren = some 0) (hg : grow_tree parent rules = some (n, p1)) :
    ∀ c ∈ p1.children,
      c.state.takata = 0 ∧
      c.state.player = get_opponent parent.state.player ∧
      (c.move.hole, c.move.dir) ∈ (get_moves MAXTRANS parent.state rules).1 ∧
      c ∈ candidate_children rules
            (set_state parent (get_moves MAXTRANS parent.state rules).2)
            (c.move.hole, c.move.dir) := by
  rw [grow_tree_eq parent rules h0] at hg
  simp only [Option.some.injEq, Prod.mk.injEq] at hg
  intro c hc
  rw [← hg.2] at hc
  simp only [BaoTree.children] at hc
  rw [mem_all_children] at hc
  obtain ⟨mv, hmv, hcm⟩ := hc
  have hs := candidate_children_spec rules _ mv c hcm
  have hp : (set_state parent (get_moves MAXTRANS parent.state rules).2).state.player
      = parent.state.player := get_moves_player parent.state rules
  have hmv2 : (c.move.hole, c.move.dir) = mv := by
    rw [hs.1, hs.2.1]
  refine ⟨hs.2.2.1, ?_, ?_, ?_⟩
  · rw [hs.2.2.2.1, hp]
  · rw [hmv2]; exact hmv
  · rw [hmv2]; exact hcm

theorem set_state_state (node : BaoTree) (st : BaoState) : (set_state node st).state = st := rfl

theorem grow_tree_hands_over_witness :
    ∃ c ∈ all_children demo_rules
        (set_state long_halting_root
          (get_moves MAXTRANS long_halting_root.state demo_rules).2)
        (get_moves MAXTRANS long_halting_root.state demo_rules).1,
      c.state.takata = 0 ∧ c.state.player = get_opponent long_halting_root.state.player := by
  obtain ⟨c, hc⟩ := List.exists_mem_of_length_pos
    (by decide : 0 < (all_children demo_rules
        (set_state long_halting_root
          (get_moves MAXTRANS long_halting_root.state demo_rules).2)
        (get_moves MAXTRANS long_halting_root.state demo_rules).1).length)
  have h := grow_tree_hands_over long_halting_root demo_rules _ _ rfl
    (grow_tree_eq long_halting_root demo_rules rfl) c hc
  exact ⟨c, hc, h.1, h.2.1⟩

/-- C12 (counterexample): the candidate (0, right) halts on the reserve hole and,
once continued, is not done after the 50 steps of the rule; the grown node keeps
the paused child, which carries hole 0 and direction right. -/
theorem grow_tree_keeps_paused_child :
    (0, MXD_RIGHT) ∈ (get_moves MAXTRANS long_halting_state demo_rules).1 ∧
    (first_run demo_rules (get_moves MAXTRANS long_halting_state demo_rules).2
        (0, MXD_RIGHT)).2 = MXS_HAULTED ∧
    (second_run demo_rules (get_moves MAXTRANS long_halting_state demo_rules).2
        (0, MXD_RIGHT)).2 = MXS_NOTDONE ∧
    (grow_tree long_halting_root demo_rules).map (fun g => g.2.children.map (fun c => c.move))
      = some [⟨0, MXD_LEFT, 1⟩, ⟨0, MXD_RIGHT, 1⟩] := by
  decide

/-- C12 (amended): for every node without children and every candidate of
`get_moves` on its state: when the candidate's execution under the rule's step
bound ends with not-done directly, no child of the grown node carries its hole
and direction; when it halts first and ends with not-done after the
continuation, the paused child (`nyumba_sown = 1`) is the only child that
carries them, the completed outcome being discarded. -/
theorem grow_tree_discards_notdone (parent : BaoTree) (rules : BaoRules) (n : Nat)
    (p1 : BaoTree) (h0 : parent.nchildren = some 0)
    (hg : grow_tree parent rules = some (n, p1)) (mv : Nat × Int)
    (hmv : mv ∈ (get_moves MAXTRANS parent.state rules).1) :
    ((first_run rules (get_moves MAXTRANS parent.state rules).2 mv).2 = MXS_NOTDONE →
      ∀ c ∈ p1.children, ¬ (c.move.hole = mv.1 ∧ c.move.dir = mv.2)) ∧
    ((first_run rules (get_moves MAXTRANS parent.state rules).2 mv).2 = MXS_HAULTED →
      (second_run rules (get_moves MAXTRANS parent.state rules).2 mv).2 = MXS_NOTDONE →
      (∀ c ∈ p1.children, c.move.hole = mv.1 → c.move.dir = mv.2 → c.move.nyumba_sown = 1) ∧
      (∃ c ∈ p1.children, c.move = ⟨mv.1, mv.2, 1⟩)) := by
  rw [grow_tree_eq parent rules h0] at hg
  simp only [Option.some.injEq, Prod.mk.injEq] at hg
  have hkids : p1.children = all_children rules
      (set_state parent (get_moves MAXTRANS parent.state rules).2)
      (get_moves MAXTRANS parent.state rules).1 := by
    rw [← hg.2]; rfl
  have hown : ∀ c ∈ p1.children, c.move.hole = mv.1 → c.move.dir = mv.2 →
      c ∈ candidate_children rules
        (set_state parent (get_moves MAXTRANS parent.state rules).2) mv := by
    intro c hc hh hd
    rw [hkids, mem_all_children] at hc
    obtain ⟨mv2, _, hcm⟩ := hc
    have hs := candidate_children_spec rules _ mv2 c hcm
    have : mv2 = mv := Prod.ext (by rw [← hs.1, hh]) (by rw [← hs.2.1, hd])
    rw [← this]
    exact hcm
  constructor
  · intro h1 c hc hcm
    have hmem := hown c hc hcm.1 hcm.2
    unfold candidate_children at hmem
    rw [set_state_state, h1] at hmem
    simp at hmem
  · intro h1 h2
    constructor
    · intro c hc hh hd
      have hmem := hown c hc hh hd
      unfold candidate_children at hmem
      rw [set_state_state, if_pos h1, if_pos h2] at hmem
      simp only [List.mem_singleton] at hmem
      rw [hmem]
      rfl
    · refine ⟨update_node (dup_node (set_state (dup_node
          (set_state parent (get_moves MAXTRANS parent.state rules).2))
          (first_run rules (get_moves MAXTRANS parent.state rules).2 mv).1.state)) mv rules 1,
        ?_, rfl⟩
      rw [hkids, mem_all_children]
      refine ⟨mv, hmv, ?_⟩
      unfold candidate_children
      rw [set_state_state, if_pos h1, if_pos h2]
      simp

theorem grow_tree_discards_notdone_witness :
    ∃ c ∈ all_children demo_rules
        (set_state long_halting_root
          (get_moves MAXTRANS long_halting_root.state demo_rules).2)
        (get_moves MAXTRANS long_halting_root.state demo_rules).1,
      c.move = ⟨0, MXD_RIGHT, 1⟩ :=
  ((grow_tree_discards_notdone long_halting_root demo_rules _ _ rfl
    (grow_tree_eq long_halting_root demo_rules rfl) (0, MXD_RIGHT) (by decide)).2
      (by decide) (by decide)).2

theorem mk_move (m : Move) (s : BaoState) (p : Option (Option BaoTree)) (c : List BaoTree)
    (n : Option Nat) : (BaoTree.mk m s p c n).move = m := rfl

theorem mk_state (m : Move) (s : BaoState) (p : Option (Option BaoTree)) (c : List BaoTree)
    (n : Option Nat) : (BaoTree.mk m s p c n).state = s := rfl

theorem mk_parent (m : Move) (s : BaoState) (p : Option (Option BaoTree)) (c : List BaoTree)
    (n : Option Nat) : (BaoTree.mk m s p c n).parent = p := rfl

theorem mk_children (m : Move) (s : BaoState) (p : Option (Option BaoTree)) (c : List BaoTree)
    (n : Option Nat) : (BaoTree.mk m s p c n).children = c := rfl

theorem mk_nchildren (m : Move) (s : BaoState) (p : Option (Option BaoTree))
    (c : List BaoTree) (n : Option Nat) : (BaoTree.mk m s p c n).nchildren = n := rfl

theorem get_moves_idem (s : BaoState) (r : BaoRules) :
    get_moves MAXTRANS (get_moves MAXTRANS s r).2 r = get_moves MAXTRANS s r := by
  by_cases hc : capture_candidates s r ≠ []
  · have h1 : get_moves MAXTRANS s r = (capture_candidates s r, s) := by
      rw [get_moves_eq, if_pos hc]
    rw [h1]
    exact h1
  · have h1 : get_moves MAXTRANS s r = (first_nonempty (later_categories s r),
        { s with takata := if first_nonempty (later_categories s r) ≠ [] then 1 else 0 }) := by
      rw [get_moves_eq, if_neg hc]
    rw [h1]
    have h2 : ∀ v : Int, capture_candidates { s with takata := v } r = capture_candidates s r :=
      fun _ => rfl
    have h3 : ∀ v : Int, later_categories { s with takata := v } r = later_categories s r :=
      fun _ => rfl
    rw [get_moves_eq]
    simp only [h2, h3]
    rw [if_neg hc]

theorem candidate_children_congr (rules : BaoRules) (p q : BaoTree) (mv : Nat × Int)
    (hs : p.state = q.state) (hm : p.move = q.move) :
    candidate_children rules p mv = candidate_children rules q mv := by
  have hd : dup_node p = dup_node q := by
    unfold dup_node
    rw [hs, hm]
  unfold candidate_children
  rw [hs, hd]

theorem all_children_congr (rules : BaoRules) (p q : BaoTree)
    (hs : p.state = q.state) (hm : p.move = q.move) :
    ∀ mvs, all_children rules p mvs = all_children rules q mvs := by
  intro mvs
  induction mvs with
  | nil => rfl
  | cons mv rest ih =>
    simp only [all_children, ih, candidate_children_congr rules p q mv hs hm]

/-- Idempotence of `grow_tree` on the runs that stay inside the board and the
`children` array: for every node whose child count `k` has been written and,
when `k = 0`, on which the call stays in bounds (`grow_tree_in_bounds`),
`grow_tree` returns a count and leaves a node, and a second call on that node
returns the same count and leaves the same node (same move, state, children in
order, and count), also when the first call made no child. -/
theorem grow_tree_idempotent (parent : BaoTree) (rules : BaoRules) (k : Nat)
    (hk : parent.nchildren = some k) (_hb : k = 0 → grow_tree_in_bounds parent rules) :
    ∃ n p1, grow_tree parent rules = some (n, p1) ∧ grow_tree p1 rules = some (n, p1) ∧
      (k ≠ 0 → n = k ∧ p1 = parent) := by
  by_cases hz : k = 0
  · subst hz
    refine ⟨_, _, grow_tree_eq parent rules hk, ?_, fun h => absurd rfl h⟩
    generalize hkids : all_children rules
      (set_state parent (get_moves MAXTRANS parent.state rules).2)
      (get_moves MAXTRANS parent.state rules).1 = kids
    by_cases hl : kids.length = 0
    · rw [grow_tree_eq _ rules (by rw [hl]; rfl)]
      simp only [mk_state, mk_move, mk_parent]
      rw [get_moves_idem]
      have hc := all_children_congr rules
        (set_state (BaoTree.mk parent.move (get_moves MAXTRANS parent.state rules).2
          parent.parent kids (some kids.length)) (get_moves MAXTRANS parent.state rules).2)
        (set_state parent (get_moves MAXTRANS parent.state rules).2) rfl rfl
        (get_moves MAXTRANS parent.state rules).1
      rw [hc, hkids]
    · unfold grow_tree
      simp only [mk_nchildren]
      rw [if_pos hl]
  · refine ⟨k, parent, ?_, ?_, fun _ => ⟨rfl, rfl⟩⟩
    · unfold grow_tree
      rw [hk]
      simp only
      rw [if_pos hz]
    · unfold grow_tree
      rw [hk]
      simp only
      rw [if_pos hz]

theorem grow_tree_idempotent_witness :
    ∃ n p1, grow_tree long_halting_root demo_rules = some (n, p1) ∧
      grow_tree p1 demo_rules = some (n, p1) ∧ ((0 : Nat) ≠ 0 → n = 0 ∧ p1 = long_halting_root) :=
  grow_tree_idempotent long_halting_root demo_rules 0 rfl (fun _ => by decide)

/-! ## Navigation -/

theorem CMP_MOVE_iff (m n : Move) : CMP_MOVE m n = true ↔ same_move m n := by
  unfold CMP_MOVE same_move
  simp [and_assoc]

theorem find_branch_loop_spec (move : Move) :
    ∀ (n : Nat) (cs : List BaoTree) (i : Nat), n ≤ cs.length →
      ∃ r, find_branch_loop move i n cs = some r ∧
        (r = -1 ↔ ∀ j < n, ∀ c, cs.get? j = some c → ¬ same_move c.move move) ∧
        (r ≠ -1 → ∃ j : Nat, r = ((i + j : Nat) : Int) ∧ j < n ∧
          (∃ c, cs.get? j = some c ∧ same_move c.move move) ∧
          ∀ k < j, ∀ c, cs.get? k = some c → ¬ same_move c.move move) := by
  intro n
  induction n with
  | zero =>
    intro cs i _
    refine ⟨-1, rfl, ?_, fun h => absurd rfl h⟩
    simp
  | succ n ih =>
    intro cs i hlen
    cases cs with
    | nil => simp at hlen
    | cons c cs =>
      simp only [List.length_cons, Nat.add_le_add_iff_right] at hlen
      unfold find_branch_loop
      by_cases hc : CMP_MOVE c.move move = true
      · rw [if_pos hc]
        refine ⟨(i : Int), rfl, ?_, ?_⟩
        · constructor
          · intro h; omega
          · intro h
            exact absurd ((CMP_MOVE_iff _ _).1 hc) (h 0 (by omega) c rfl)
        · intro _
          refine ⟨0, by simp, by omega, ⟨c, rfl, (CMP_MOVE_iff _ _).1 hc⟩, ?_⟩
          intro k hk
          omega
      · rw [if_neg hc]
        obtain ⟨r, hr, h1, h2⟩ := ih cs (i + 1) hlen
        have hcn : ¬ same_move c.move move := fun h => hc ((CMP_MOVE_iff _ _).2 h)
        refine ⟨r, hr, ?_, ?_⟩
        · rw [h1]
          constructor
          · intro h j hj d hd
            cases j with
            | zero =>
              simp only [List.get?_cons_zero, Option.some.injEq] at hd
              rw [← hd]; exact hcn
            | succ j =>
              simp only [List.get?_cons_succ] at hd
              exact h j (by omega) d hd
          · intro h j hj d hd
            exact h (j + 1) (by omega) d (by simpa using hd)
        · intro hne
          obtain ⟨j, hj1, hj2, ⟨d, hd1, hd2⟩, hj3⟩ := h2 hne
          refine ⟨j + 1, ?_, by omega, ⟨d, by simpa using hd1, hd2⟩, ?_⟩
          · rw [hj1]; congr 1; omega
          · intro k hk e he
            cases k with
            | zero =>
              simp only [List.get?_cons_zero, Option.some.injEq] at he
              rw [← he]; exact hcn
            | succ k =>
              simp only [List.get?_cons_succ] at he
              exact hj3 k (by omega) e he

/-- The search of `find_branch` on a node whose child count has been written
and whose first `nchildren` slots hold children: `find_branch` returns a value; the value is -1 exactly when no child among these has a move
equal to the given one in hole, direction and paused flag; otherwise it is the
smallest index below the child count whose child has such a move. -/
theorem find_branch_spec (node : BaoTree) (move : Move) (n : Nat)
    (hn : node.nchildren = some n) (hlen : n ≤ node.children.length) :
    ∃ r, find_branch node move = some r ∧
      (r = -1 ↔ ∀ j < n, ∀ c, node.children.get? j = some c → ¬ same_move c.move move) ∧
      (r ≠ -1 → ∃ i : Nat, r = (i : Int) ∧ i < n ∧
        (∃ c, node.children.get? i = some c ∧ same_move c.move move) ∧
        ∀ k < i, ∀ c, node.children.get? k = some c → ¬ same_move c.move move) := by
  unfold find_branch
  rw [hn]
  obtain ⟨r, hr, h1, h2⟩ := find_branch_loop_spec move n node.children 0 hlen
  refine ⟨r, hr, h1, ?_⟩
  intro hne
  obtain ⟨j, hj1, hj⟩ := h2 hne
  exact ⟨j, by rw [hj1]; simp, hj⟩

theorem find_branch_spec_witness :
    ∃ r, find_branch two_child_node ⟨2, MXD_RIGHT, 0⟩ = some r ∧
      (r = -1 ↔ ∀ j < 2, ∀ c, two_child_node.children.get? j = some c →
        ¬ same_move c.move ⟨2, MXD_RIGHT, 0⟩) ∧
      (r ≠ -1 → ∃ i : Nat, r = (i : Int) ∧ i < 2 ∧
        (∃ c, two_child_node.children.get? i = some c ∧ same_move c.move ⟨2, MXD_RIGHT, 0⟩) ∧
        ∀ k < i, ∀ c, two_child_node.children.get? k = some c →
          ¬ same_move c.move ⟨2, MXD_RIGHT, 0⟩) :=
  find_branch_spec two_child_node ⟨2, MXD_RIGHT, 0⟩ 2 rfl (by decide)

/-- C15 (failing input): south, in its second stage with the trap rule active,
sows the back-row hole 8 to the left; afterwards its holes 0, 6 and 7 hold one
seed each and north's hole 1 holds one.  For south, hole 7 is the one front-row
hole that admits a capture (its seed lands on hole 6, which faces north's hole
1).  With an even flags byte `can_capture` tests the landing hole for north,
`get_mtaji_moja_trap` finds the move (0, right) alone, and the child's trapped
hole is 0; with an odd flags byte it is 7. -/
theorem trapped_hole_reads_flags :
    (get_moves MAXTRANS (trap_probe_state 0) demo_rules).1 = [(8, MXD_LEFT), (8, MXD_RIGHT)] ∧
    (get_moves MAXTRANS (trap_probe_state 0) demo_rules).2.takata = 1 ∧
    (grow_tree (trap_probe_root 0) demo_rules).map (fun g => g.2.children.map
        (fun c => (c.move, (front_row.map (c.state.board P_SOUTH)),
          c.state.board P_NORTH 1, c.state.board P_SOUTH H_STORE, c.state.trapped_hole)))
      = some [(⟨8, MXD_LEFT, 0⟩, [1, 0, 0, 0, 0, 0, 1, 1], 1, 0, 0),
              (⟨8, MXD_RIGHT, 0⟩, [1, 0, 0, 0, 0, 0, 0, 0], 1, 0, H_NONE)] ∧
    (grow_tree (trap_probe_root 1) demo_rules).map (fun g => g.2.children.map
        (fun c => (c.move, c.state.trapped_hole)))
      = some [(⟨8, MXD_LEFT, 0⟩, 7), (⟨8, MXD_RIGHT, 0⟩, H_NONE)] := by
  decide

/-- C17 (failing input): on a node without children, `shift_tree` with index 0
returns 0 and leaves the cursor at the empty slot `children[0]`; on a node with
two children it does so with index 2, and returns -1 only from index 3 on. -/
theorem shift_tree_accepts_child_count :
    (new_tree demo_rules 0).nchildren = some 0 ∧
    (shift_tree (new_tree demo_rules 0) 0).map (fun r => (r.1, r.2.isNone)) = some (0, true) ∧
    two_child_node.nchildren = some 2 ∧
    (shift_tree two_child_node 1).map (fun r => (r.1, r.2.map BaoTree.move))
      = some (0, some ⟨2, MXD_RIGHT, 0⟩) ∧
    (shift_tree two_child_node 2).map (fun r => (r.1, r.2.isNone)) = some (0, true) ∧
    (shift_tree two_child_node 3).map (fun r => (r.1, r.2.isNone)) = some (-1, false) := by
  decide

/-- C18 (failing input): the children `grow_tree` makes for the root have a
`parent` field that was never written (`dup_node` and `update_node` leave it as
allocated), so `unshift_tree` on the child reached by `shift_tree` reads a
pointer that was never set; on the root, whose `parent` is `NULL`, it returns -1
and leaves the cursor. -/
theorem unshift_tree_reads_unset_parent :
    (grow_tree (trap_probe_root 1) demo_rules).map (fun g => g.2.children.map
        (fun c => c.parent.isNone)) = some [true, true] ∧
    ((grow_tree (trap_probe_root 1) demo_rules).bind (fun g => shift_tree g.2 0)).map
        (fun r => (r.1, r.2.map (fun c => (c.move, (unshift_tree c).isNone))))
      = some (0, some (⟨8, MXD_LEFT, 0⟩, true)) ∧
    (new_tree demo_rules 0).parent = some none ∧
    unshift_tree (new_tree demo_rules 0) = some (-1, new_tree demo_rules 0) := by
  refine ⟨by decide, by decide, rfl, rfl⟩

/-! ## Search -/

/-- C19 (failing input): the children of a grown node are made by `dup_node`,
which never writes their `nchildren`.  When the allocation holds 3 there,
`get_best_score` at depth 0 on such a child whose mover has no legal move takes
the child as grown and returns minus the mover's seeds, not 0; at depth 2 on
the root it loops over three slots of a child that are all `NULL`.  When the
allocation holds 0, the child is evaluated to 0. -/
theorem get_best_score_reads_unset_count :
    (grow_tree (trap_probe_root 1) demo_rules).map (fun g => g.2.children.map
        (fun c => (c.nchildren, c.children.length))) = some [(none, 0), (none, 0)] ∧
    (get_moves MAXTRANS stalemate_state demo_rules).1 = [] ∧
    (get_best_score 3 P_SOUTH demo_rules 0 stalemate_child).map Prod.fst = some (-1) ∧
    (get_best_score 0 P_SOUTH demo_rules 0 stalemate_child).map Prod.fst = some 0 ∧
    (get_best_score 3 P_SOUTH demo_rules 2 (trap_probe_root 1)).isNone = true := by
  decide

/-- C20 (failing input): `best_branch` at depth 1 on a node with 7 seeds calls
`get_best_score` on each child; the child's `nchildren` was never written, and
when the allocation holds 3 there `get_best_score` loops over three slots of
the child that are all `NULL`.  At depth 0 the call returns an index. -/
theorem best_branch_reads_unset_count :
    total_seeds (trap_probe_state 1) = 7 ∧
    (grow_tree (trap_probe_root 1) demo_rules).map (fun g => g.2.children.map
        (fun c => (c.nchildren, c.children.length))) = some [(none, 0), (none, 0)] ∧
    (best_branch 3 (fun _ => 0) (trap_probe_root 1) demo_rules 1).isNone = true ∧
    best_branch 3 (fun _ => 0) (trap_probe_root 1) demo_rules 0 = some 1 := by
  decide

/-! ## The bound on the number of children -/

/-- C21: on `crowded_state` (64 seeds, north to move in its first stage) with
the rules of the demo, `get_moves` gives 14 candidates; each of them halts on
the reserve hole and completes after the continuation, so `grow_tree` stores
two children for each, 28 in all, more than the `MAXTRANS` = 20 slots of the
`children` array: the ten first candidates fill the 20 slots, and the child
stored next, at index 20, is the paused child of the candidate (6, left). -/
theorem grow_tree_overflows_children :
    total_seeds crowded_state = 64 ∧
    (get_moves MAXTRANS crowded_state demo_rules).1.length = 14 ∧
    (grow_tree crowded_root demo_rules).map Prod.fst = some 28 ∧
    MAXTRANS = 20 ∧
    (grow_tree_loop demo_rules
      (set_state crowded_root (get_moves MAXTRANS crowded_state demo_rules).2)
      ((get_moves MAXTRANS crowded_state demo_rules).1.take 10) []).length = 20 ∧
    ((grow_tree crowded_root demo_rules).bind (fun g => g.2.children.get? 20)).map BaoTree.move
      = some ⟨6, MXD_LEFT, 1⟩ := by
  decide

/-! ## The stores during a move -/

theorem set_board_board (s : BaoState) (p : Player) (h v : Nat) (q : Player) (i : Nat) :
    (set_board s p h v).board q i = if q = p ∧ i = h then v else s.board q i := rfl

theorem set_nyumba_board (s : BaoState) (p : Player) (v : Int) :
    (set_nyumba s p v).board = s.board := rfl

theorem Hand_step_hole_ne_store (h : Hand) (hh : h.hole ≠ H_STORE) :
    (Hand_step h).hole ≠ H_STORE := by
  unfold Hand_step
  simp only [H_LBKICHWA, H_LFKICHWA, H_STORE] at *
  split
  · split
    · simp
    · simp only; omega
  · split
    · split
      · simp
      · simp only; omega
    · exact hh

theorem Hand_step_state (h : Hand) : (Hand_step h).state = h.state ∧ (Hand_step h).side = h.side := by
  unfold Hand_step
  split
  · split <;> exact ⟨rfl, rfl⟩
  · split
    · split <;> exact ⟨rfl, rfl⟩
    · exact ⟨rfl, rfl⟩

theorem Hand_reset_hole_ne_store (h : Hand) : (Hand_reset h).hole ≠ H_STORE := by
  unfold Hand_reset
  split
  · exact (by decide : H_LFKICHWA ≠ H_STORE)
  · split
    · exact (by decide : H_RFKICHWA ≠ H_STORE)
    · split
      · exact (by decide : H_LFKICHWA ≠ H_STORE)
      · exact (by decide : H_RFKICHWA ≠ H_STORE)

theorem Hand_reset_state (h : Hand) : (Hand_reset h).state = h.state ∧ (Hand_reset h).side = h.side := by
  unfold Hand_reset
  split
  · exact ⟨rfl, rfl⟩
  · split
    · exact ⟨rfl, rfl⟩
    · split <;> exact ⟨rfl, rfl⟩

theorem Hand_can_switch_side_front (hand : Hand) (rules : BaoRules)
    (hsw : Hand_can_switch_side hand rules = true) : hand.hole ≤ 7 := by
  unfold Hand_can_switch_side at hsw
  by_contra hc
  simp only [H_RFKICHWA] at hsw
  rw [if_pos (Or.inl (by omega))] at hsw
  cases hsw

/-- One pass of the loop of `exec_move` from a hole other than the store leaves
the hand at a hole other than the store and both stores as they were. -/
theorem exec_step_store (hand : Hand) (rules : BaoRules) (hh : hand.hole ≠ H_STORE) :
    (exec_step hand rules).1.hole ≠ H_STORE ∧
      ∀ q, (exec_step hand rules).1.state.board q H_STORE = hand.state.board q H_STORE := by
  have hlift : ∀ h : Hand, h.hole ≠ H_STORE →
      (Hand_lift h).hole ≠ H_STORE ∧
        ∀ q, (Hand_lift h).state.board q H_STORE = h.state.board q H_STORE := by
    intro h hne
    refine ⟨hne, fun q => ?_⟩
    simp only [Hand_lift, set_board_board]
    rw [if_neg]
    intro hc
    exact hne hc.2.symm
  have hsow : ∀ h : Hand, h.hole ≠ H_STORE →
      (Hand_sow h).hole ≠ H_STORE ∧
        ∀ q, (Hand_sow h).state.board q H_STORE = h.state.board q H_STORE := by
    intro h hne
    refine ⟨hne, fun q => ?_⟩
    simp only [Hand_sow, set_board_board]
    rw [if_neg]
    intro hc
    exact hne hc.2.symm
  unfold exec_step
  by_cases hn : hand.nkhomo = 0
  · rw [if_pos hn]
    by_cases hsw : Hand_can_switch_side hand rules = true
    · rw [if_pos hsw]
      have hfront := Hand_can_switch_side_front hand rules hsw
      have hne : (Hand_switch_side hand).hole ≠ H_STORE := by
        simp only [Hand_switch_side, get_opposing_hole_front _ hfront, H_STORE]
        omega
      have hl := hlift _ hne
      dsimp only
      split
      · exact ⟨hl.1, fun q => (hl.2 q).trans rfl⟩
      · exact ⟨hl.1, fun q => (hl.2 q).trans rfl⟩
    · rw [if_neg hsw]
      have hl := hlift hand hh
      dsimp only
      split
      · split
        · split
          · split <;> exact ⟨hh, fun _ => rfl⟩
          · exact ⟨hl.1, fun q => hl.2 q⟩
        · split
          · exact ⟨hh, fun _ => rfl⟩
          · exact hl
      · exact ⟨hh, fun _ => rfl⟩
  · rw [if_neg hn]
    split
    · have h1 := Hand_reset_hole_ne_store (Hand_switch_side hand)
      have h2 := hsow _ h1
      refine ⟨h2.1, fun q => ?_⟩
      rw [h2.2 q, (Hand_reset_state _).1]
      rfl
    · have h1 := Hand_step_hole_ne_store hand hh
      have h2 := hsow _ h1
      refine ⟨h2.1, fun q => ?_⟩
      rw [h2.2 q, (Hand_step_state _).1]

theorem exec_loop_store (rules : BaoRules) :
    ∀ (n : Nat) (hand : Hand), hand.hole ≠ H_STORE →
      (exec_loop rules n hand).1.hole ≠ H_STORE ∧
        ∀ q, (exec_loop rules n hand).1.state.board q H_STORE = hand.state.board q H_STORE := by
  intro n
  induction n with
  | zero => intro hand hh; exact ⟨hh, fun _ => rfl⟩
  | succ n ih =>
    intro hand hh
    have hs := exec_step_store hand rules hh
    rcases hst : exec_step hand rules with ⟨h1, _ | sts⟩
    · rw [hst] at hs
      rw [exec_loop_succ_none rules n hand h1 hst]
      have := ih h1 hs.1
      exact ⟨this.1, fun q => by rw [this.2 q, hs.2 q]⟩
    · rw [hst] at hs
      rw [exec_loop_succ_some rules n hand h1 sts hst]
      exact hs



theorem get_moves_board (s : BaoState) (r : BaoRules) :
    (get_moves MAXTRANS s r).2.board = s.board := by
  rw [get_moves_eq]
  split <;> rfl

theorem mem_first_nonempty (mv : Nat × Int) :
    ∀ ls : List (List (Nat × Int)), mv ∈ first_nonempty ls → ∃ l ∈ ls, mv ∈ l := by
  intro ls
  induction ls with
  | nil => intro h; simp [first_nonempty] at h
  | cons l ls ih =>
    intro h
    unfold first_nonempty at h
    split at h
    · exact ⟨l, List.mem_cons_self _ _, h⟩
    · obtain ⟨l1, hl1, hm⟩ := ih h
      exact ⟨l1, List.mem_cons_of_mem _ hl1, hm⟩

/-- The candidates of `get_moves` start at a hole other than the store. -/
theorem get_moves_hole_ne_store (s : BaoState) (r : BaoRules) (mv : Nat × Int)
    (hmv : mv ∈ (get_moves MAXTRANS s r).1) : mv.1 ≠ H_STORE := by
  have hfront : ∀ h ∈ front_row, h ≠ H_STORE := by decide
  have hback : ∀ h ∈ back_row, h ≠ H_STORE := by decide
  obtain ⟨h, d⟩ := mv
  rw [get_moves_eq] at hmv
  split at hmv
  · simp only at hmv
    unfold capture_candidates at hmv
    split at hmv
    · exact hfront h ((mem_passing _ _ _ _ _ _).1 hmv).1
    · have := ((mem_passing _ _ _ _ _ _).1 hmv).1
      rcases List.mem_append.1 this with h1 | h1
      · exact hfront h h1
      · exact hback h h1
  · simp only at hmv
    obtain ⟨l, hl, hm⟩ := mem_first_nonempty _ _ hmv
    unfold later_categories at hl
    by_cases hst : IN_NAMUA s s.player = true
    · rw [if_pos hst] at hl
      simp only [List.mem_cons, List.mem_singleton, List.not_mem_nil, or_false] at hl
      rcases hl with rfl | rfl | rfl
      · exact hfront h ((mem_passing _ _ _ _ _ _).1 hm).1
      · exact hfront h ((mem_passing _ _ _ _ _ _).1 hm).1
      · have := ((mem_passing _ _ _ _ _ _).1 hm).1
        simp only [List.mem_singleton] at this
        show h ≠ H_STORE
        rw [this]
        exact (by decide : H_NYUMBA ≠ H_STORE)
    · rw [if_neg hst] at hl
      simp only [List.mem_cons, List.mem_singleton, List.not_mem_nil, or_false] at hl
      rcases hl with rfl | rfl | rfl
      · exact hfront h ((mem_passing _ _ _ _ _ _).1 hm).1
      · have hp := (mem_passing _ _ _ _ _ _).1 hm
        have hh : h = s.trapped_hole := by simpa using hp.1
        have ht := hp.2.2
        intro hc
        have hstore : s.board s.player H_STORE = 0 := by
          simpa [IN_NAMUA] using hst
        have hc1 : h = H_STORE := hc
        unfold test_mtaji_special at ht
        rw [← hh, hc1, hstore] at ht
        simp at ht
      · exact hback h ((mem_passing _ _ _ _ _ _).1 hm).1

theorem start_move_store (s : BaoState) (r : BaoRules) (m : Move) (p : Player)
    (hp : s.board p H_STORE = 0) : (start_move s r m).state.board p H_STORE = 0 := by
  unfold start_move
  split
  · rename_i hne
    have hpp : p ≠ s.player := by
      intro hc; rw [hc] at hp; exact hne hp
    dsimp only
    split
    · simp only [set_board_board]
      simp [hpp, set_board, hp]
    · simp only [set_board_board]
      simp [hpp, set_board, hp]
  · dsimp only
    simp only [Hand_lift, set_board_board]
    split
    · rfl
    · split
      · exact hp
      · exact hp

theorem prep_state_board (s : BaoState) (r : BaoRules) : (prep_state s r).board = s.board := by
  unfold prep_state
  dsimp only
  split <;> rfl

theorem first_run_store (rules : BaoRules) (s : BaoState) (mv : Nat × Int) (p : Player)
    (hp : s.board p H_STORE = 0) (hmv : mv.1 ≠ H_STORE) :
    (first_run rules s mv).1.hole ≠ H_STORE ∧
      (first_run rules s mv).1.state.board p H_STORE = 0 := by
  have h1 := start_move_store s rules ⟨mv.1, mv.2, 0⟩ p hp
  have h2 : (start_move s rules ⟨mv.1, mv.2, 0⟩).hole ≠ H_STORE := by
    rw [start_move_hole]; exact hmv
  have h3 := exec_loop_store rules rules.max_move_exec_depth.toNat _ h2
  exact ⟨h3.1, by rw [← h1]; exact h3.2 p⟩

theorem second_run_store (rules : BaoRules) (s : BaoState) (mv : Nat × Int) (p : Player)
    (hp : s.board p H_STORE = 0) (hmv : mv.1 ≠ H_STORE) :
    (second_run rules s mv).1.state.board p H_STORE = 0 := by
  have h1 := first_run_store rules s mv p hp hmv
  have h3 := exec_loop_store rules rules.max_move_exec_depth.toNat
    (continue_move (first_run rules s mv).1) h1.1
  rw [← h1.2]
  exact h3.2 p

theorem candidate_children_store (rules : BaoRules) (parent : BaoTree) (mv : Nat × Int)
    (p : Player) (hp : parent.state.board p H_STORE = 0) (hmv : mv.1 ≠ H_STORE)
    (c : BaoTree) (hc : c ∈ candidate_children rules parent mv) :
    c.state.board p H_STORE = 0 := by
  have h1 := (first_run_store rules parent.state mv p hp hmv).2
  have h2 := second_run_store rules parent.state mv p hp hmv
  have e1 : ∀ (n : BaoTree) (k : Int),
      (update_node n mv rules k).state.board = n.state.board := by
    intro n k
    exact prep_state_board _ _
  unfold candidate_children at hc
  split at hc
  · split at hc
    · simp only [List.mem_singleton] at hc
      subst hc
      rw [e1]; exact h1
    · simp only [List.mem_cons, List.mem_singleton, List.not_mem_nil, or_false] at hc
      rcases hc with hc | hc
      · subst hc; rw [e1]; exact h1
      · subst hc; rw [e1]; exact h2
  · split at hc
    · simp at hc
    · simp only [List.mem_singleton] at hc
      subst hc
      rw [e1]; exact h1

/-- The store of a side after `start_move`: as it was, or decremented once or
twice (the decrements are those of the mover's store in the first stage). -/
theorem start_move_store_dec (s : BaoState) (r : BaoRules) (m : Move) (q : Player)
    (hm : m.hole ≠ H_STORE) :
    (start_move s r m).state.board q H_STORE = s.board q H_STORE ∨
    (start_move s r m).state.board q H_STORE = u32_dec (s.board q H_STORE) ∨
    (start_move s r m).state.board q H_STORE = u32_dec (u32_dec (s.board q H_STORE)) := by
  have hm2 : ¬ (H_STORE = m.hole) := fun h => hm h.symm
  have h4 : ¬ (H_STORE = H_NYUMBA) := by decide
  unfold start_move
  split
  · dsimp only
    by_cases hq : q = s.player
    · split
      · refine Or.inr (Or.inr ?_)
        simp [set_board, hq, hm2, h4]
      · refine Or.inr (Or.inl ?_)
        simp [set_board, hq, hm2]
    · split
      · refine Or.inl ?_
        simp [set_board, hq]
      · refine Or.inl ?_
        simp [set_board, hq]
  · refine Or.inl ?_
    dsimp only
    simp only [Hand_lift, set_board_board]
    rw [if_neg (fun h => hm2 h.2)]
    split <;> rfl

/-- C22: a store that is empty in the state of a node without children is
empty in the state of every child that `grow_tree` makes for it, for each
side.  No step of a move puts a seed into a store: a call of `exec_move` on a
hand that is not at the store leaves both stores as they were, and
`start_move` leaves a store as it was or decrements it, once or twice. -/
theorem grow_tree_store_stays_empty (parent : BaoTree) (rules : BaoRules) (n : Nat)
    (p1 : BaoTree) (h0 : parent.nchildren = some 0)
    (hg : grow_tree parent rules = some (n, p1)) (p : Player)
    (hp : parent.state.board p H_STORE = 0) :
    (∀ c ∈ p1.children, c.state.board p H_STORE = 0) ∧
    (∀ (hand : Hand) (steps : Int) (q : Player), hand.hole ≠ H_STORE →
      (exec_move hand rules steps).1.state.board q H_STORE = hand.state.board q H_STORE) ∧
    (∀ (s : BaoState) (m : Move) (q : Player), m.hole ≠ H_STORE →
      (start_move s rules m).state.board q H_STORE = s.board q H_STORE ∨
      (start_move s rules m).state.board q H_STORE = u32_dec (s.board q H_STORE) ∨
      (start_move s rules m).state.board q H_STORE
        = u32_dec (u32_dec (s.board q H_STORE))) := by
  refine ⟨?_, fun hand steps q hh => (exec_loop_store rules _ hand hh).2 q,
    fun s m q hm => start_move_store_dec s rules m q hm⟩
  rw [grow_tree_eq parent rules h0] at hg
  simp only [Option.some.injEq, Prod.mk.injEq] at hg
  intro c hc
  rw [← hg.2] at hc
  simp only [BaoTree.children] at hc
  rw [mem_all_children] at hc
  obtain ⟨mv, hmv, hcm⟩ := hc
  refine candidate_children_store rules _ mv p ?_ (get_moves_hole_ne_store _ _ mv hmv) c hcm
  rw [set_state_state, get_moves_board]
  exact hp

theorem grow_tree_store_stays_empty_witness :
    (trap_probe_root 1).state.board P_NORTH H_STORE = 0 ∧
    ((∀ c ∈ all_children demo_rules
        (set_state (trap_probe_root 1)
          (get_moves MAXTRANS (trap_probe_root 1).state demo_rules).2)
        (get_moves MAXTRANS (trap_probe_root 1).state demo_rules).1,
      c.state.board P_NORTH H_STORE = 0) ∧
    (∀ (hand : Hand) (steps : Int) (q : Player), hand.hole ≠ H_STORE →
      (exec_move hand demo_rules steps).1.state.board q H_STORE
        = hand.state.board q H_STORE) ∧
    (∀ (s : BaoState) (m : Move) (q : Player), m.hole ≠ H_STORE →
      (start_move s demo_rules m).state.board q H_STORE = s.board q H_STORE ∨
      (start_move s demo_rules m).state.board q H_STORE = u32_dec (s.board q H_STORE) ∨
      (start_move s demo_rules m).state.board q H_STORE
        = u32_dec (u32_dec (s.board q H_STORE)))) :=
  ⟨by decide, grow_tree_store_stays_empty (trap_probe_root 1) demo_rules _ _ rfl
    (grow_tree_eq (trap_probe_root 1) demo_rules rfl) P_NORTH (by decide)⟩

/-! ## The sowing that follows a capture -/

theorem u32_dec_pos (x : Nat) (h0 : x ≠ 0) (hlt : x < U32) : u32_dec x = x - 1 := by
  unfold u32_dec U32 at *
  omega

theorem hole_after_succ (start : Nat) (dir : Int) (j : Nat) :
    hole_after (hole_after start dir j) dir 1 = hole_after start dir (j + 1) := by
  unfold hole_after
  split <;> omega

theorem hole_after_le (start : Nat) (dir : Int) (j : Nat) : hole_after start dir j ≤ 15 := by
  unfold hole_after
  split <;> omega

theorem Hand_step_hole (h : Hand) (hh : h.hole ≤ 15) (hd : h.dir = MXD_LEFT ∨ h.dir = MXD_RIGHT) :
    Hand_step h = { h with hole := hole_after h.hole h.dir 1 } := by
  unfold Hand_step hole_after
  simp only [H_LBKICHWA, H_LFKICHWA, u32_inc, u32_dec, U32]
  rcases hd with hd | hd
  · have hne : ¬ (h.dir = MXD_RIGHT) := by rw [hd]; decide
    rw [if_neg hne, if_pos hd, if_neg hne]
    split
    · have : h.hole = 0 := by omega
      rw [this]
    · have e : (h.hole + (4294967296 - 1)) % 4294967296 = (h.hole + 15 * 1) % 16 := by omega
      rw [e]
  · rw [if_pos hd, if_pos hd]
    split
    · have : h.hole = 15 := by omega
      rw [this]
    · have e : (h.hole + 1) % 4294967296 = (h.hole + 1) % 16 := by omega
      rw [e]

/-- A pass of the loop of `exec_move` on a hand that holds seeds on the mover's
side: the hand moves one hole and sows one seed there. -/
theorem exec_step_sow (hand : Hand) (rules : BaoRules) (hs : hand.side = hand.state.player)
    (hn : hand.nkhomo ≠ 0) (hlt : hand.nkhomo < U32) (hh : hand.hole ≤ 15)
    (hd : hand.dir = MXD_LEFT ∨ hand.dir = MXD_RIGHT) :
    exec_step hand rules =
      ({ state := set_board hand.state hand.side (hole_after hand.hole hand.dir 1)
            (u32_inc (hand.state.board hand.side (hole_after hand.hole hand.dir 1)))
         side := hand.side
         hole := hole_after hand.hole hand.dir 1
         nkhomo := hand.nkhomo - 1
         dir := hand.dir }, none) := by
  unfold exec_step
  rw [if_neg hn, if_neg (by simpa using hs), Hand_step_hole hand hh hd]
  simp only [Hand_sow, u32_dec_pos _ hn hlt]

/-- The pass of the loop of `exec_move` that follows a capture from the mover's
hole `h`: the hand returns to the mover's side and sows one seed at the anchor. -/
theorem exec_step_reset (hand : Hand) (rules : BaoRules) (h : Nat) (hh : h ≤ 7)
    (hs : hand.side ≠ hand.state.player) (hhole : hand.hole = 7 - h)
    (hn : hand.nkhomo ≠ 0) (hlt : hand.nkhomo < U32) :
    exec_step hand rules =
      ({ state := set_board hand.state hand.state.player (reset_anchor h hand.dir).1
            (u32_inc (hand.state.board hand.state.player (reset_anchor h hand.dir).1))
         side := hand.state.player
         hole := (reset_anchor h hand.dir).1
         nkhomo := hand.nkhomo - 1
         dir := (reset_anchor h hand.dir).2 }, none) := by
  have hop : get_opposing_hole hand.hole = h := by
    rw [get_opposing_hole_front _ (by omega), hhole]; omega
  unfold exec_step
  rw [if_neg hn, if_pos hs]
  simp only [Hand_switch_side, hop, get_opponent_ne _ _ hs, Hand_reset, reset_anchor,
    H_LFKIMBI, H_RFKIMBI, H_LFKICHWA, H_RFKICHWA]
  split
  · simp only [Hand_sow, u32_dec_pos _ hn hlt]
  · split
    · simp only [Hand_sow, u32_dec_pos _ hn hlt]
    · split
      · simp only [Hand_sow, u32_dec_pos _ hn hlt]
      · simp only [Hand_sow, u32_dec_pos _ hn hlt]

theorem exec_loop_one (rules : BaoRules) (hand h1 : Hand)
    (hs : exec_step hand rules = (h1, none)) :
    exec_loop rules 1 hand = (h1, MXS_NOTDONE) := by
  rw [exec_loop_succ_none rules 0 hand h1 hs, exec_loop_zero]

/-- A capture: the pass of the loop of `exec_move` on an empty hand that can
switch sides leaves the hand on the opponent's side, at the hole facing the
one it left, holding the seeds it lifted there. -/
theorem exec_step_capture (hand : Hand) (rules : BaoRules)
    (hs : hand.side = hand.state.player) (hn : hand.nkhomo = 0)
    (hsw : Hand_can_switch_side hand rules = true)
    (hu : hand.state.board (get_opponent hand.side) (7 - hand.hole) < U32) :
    hand.hole ≤ 7 ∧
    (exec_step hand rules).1.side ≠ (exec_step hand rules).1.state.player ∧
    (exec_step hand rules).1.hole = 7 - hand.hole ∧
    (exec_step hand rules).1.nkhomo ≠ 0 ∧
    (exec_step hand rules).1.nkhomo < U32 ∧
    (exec_step hand rules).1.dir = hand.dir := by
  have hfront := Hand_can_switch_side_front hand rules hsw
  have hop := get_opposing_hole_front _ hfront
  have hne : hand.state.board (get_opponent hand.side) (7 - hand.hole) ≠ 0 := by
    intro hc
    unfold Hand_can_switch_side at hsw
    rw [hop, if_pos (Or.inr (Or.inr (Or.inr hc)))] at hsw
    cases hsw
  have hside : get_opponent hand.side ≠ hand.state.player := by
    rw [← hs]
    unfold get_opponent
    split
    · rename_i h; rw [h]; decide
    · rename_i h; exact fun hc => h hc.symm
  have hk : u32_add hand.nkhomo (hand.state.board (get_opponent hand.side) (7 - hand.hole))
      = hand.state.board (get_opponent hand.side) (7 - hand.hole) := by
    rw [hn]
    unfold u32_add
    rw [Nat.zero_add, Nat.mod_eq_of_lt hu]
  have key : (Hand_lift (Hand_switch_side hand)).side ≠ hand.state.player ∧
      (Hand_lift (Hand_switch_side hand)).hole = 7 - hand.hole ∧
      (Hand_lift (Hand_switch_side hand)).nkhomo ≠ 0 ∧
      (Hand_lift (Hand_switch_side hand)).nkhomo < U32 ∧
      (Hand_lift (Hand_switch_side hand)).dir = hand.dir := by
    simp only [Hand_lift, Hand_switch_side, hop, hk]
    exact ⟨hside, trivial, hne, hu, trivial⟩
  refine ⟨hfront, ?_⟩
  unfold exec_step
  rw [if_pos hn, if_pos hsw]
  dsimp only
  split
  · exact key
  · exact key

/-- C23: a hand that has just captured from the mover's front-row hole `h` is
on the opponent's side at hole `7 - h` and holds the seeds it lifted.  The next
step of `exec_move` returns it to the mover's side and sows one seed at the
anchor: hole 0 with the direction set to right when `h ≤ 1`, hole 7 with the
direction set to left when `h ≥ 6`, and for `2 ≤ h ≤ 5` hole 0 if the hand sows
right and hole 7 if it sows left, the direction kept.  Each of the following
steps, as long as the hand holds seeds, moves the hand one hole on in that
direction and sows one seed there: step `j + 1` leaves the hand on the mover's
side `j` holes after the anchor with `j + 1` seeds fewer, one seed more in that
hole and every other hole as step `j` left it. -/
theorem capture_reset_then_sow (hand : Hand) (rules : BaoRules) (h : Nat) (hh : h ≤ 7)
    (hs : hand.side ≠ hand.state.player) (hhole : hand.hole = 7 - h)
    (hn : hand.nkhomo ≠ 0) (hlt : hand.nkhomo < U32)
    (hd : hand.dir = MXD_LEFT ∨ hand.dir = MXD_RIGHT) (j : Nat) (hj : j < hand.nkhomo) :
    (exec_loop rules (j + 1) hand).2 = MXS_NOTDONE ∧
    (exec_loop rules (j + 1) hand).1.side = hand.state.player ∧
    (exec_loop rules (j + 1) hand).1.hole
      = hole_after (reset_anchor h hand.dir).1 (reset_anchor h hand.dir).2 j ∧
    (exec_loop rules (j + 1) hand).1.dir = (reset_anchor h hand.dir).2 ∧
    (exec_loop rules (j + 1) hand).1.nkhomo = hand.nkhomo - (j + 1) ∧
    (exec_loop rules (j + 1) hand).1.state =
      set_board (exec_loop rules j hand).1.state hand.state.player
        (hole_after (reset_anchor h hand.dir).1 (reset_anchor h hand.dir).2 j)
        (u32_inc ((exec_loop rules j hand).1.state.board hand.state.player
          (hole_after (reset_anchor h hand.dir).1 (reset_anchor h hand.dir).2 j))) := by
  have hdir : (reset_anchor h hand.dir).2 = MXD_LEFT ∨ (reset_anchor h hand.dir).2 = MXD_RIGHT := by
    unfold reset_anchor
    split
    · exact Or.inr rfl
    · split
      · exact Or.inl rfl
      · split <;> exact hd
  have h0 : hole_after (reset_anchor h hand.dir).1 (reset_anchor h hand.dir).2 0
      = (reset_anchor h hand.dir).1 := by
    unfold hole_after reset_anchor
    split
    · simp
    · split
      · simp [MXD_LEFT, MXD_RIGHT]
      · split <;> simp [*]
  induction j with
  | zero =>
    rw [exec_loop_one rules hand _ (exec_step_reset hand rules h hh hs hhole hn hlt),
      exec_loop_zero, h0]
    exact ⟨rfl, rfl, rfl, rfl, rfl, rfl⟩
  | succ j ih =>
    obtain ⟨i1, i2, i3, i4, i5, _⟩ := ih (by omega)
    have hpl : (exec_loop rules (j + 1) hand).1.state.player = hand.state.player :=
      (exec_loop_player rules (j + 1) hand).1
    have hstep := exec_step_sow (exec_loop rules (j + 1) hand).1 rules (by rw [i2, hpl])
      (by rw [i5]; omega) (by rw [i5]; omega) (by rw [i3]; exact hole_after_le _ _ _)
      (by rw [i4]; exact hdir)
    rw [i2, i3, i4, i5, hole_after_succ] at hstep
    have hadd := exec_loop_add rules (j + 1) 1 hand
    rw [if_pos i1, exec_loop_one rules _ _ hstep] at hadd
    rw [hadd]
    refine ⟨rfl, rfl, rfl, rfl, ?_, rfl⟩
    show hand.nkhomo - (j + 1) - 1 = hand.nkhomo - (j + 1 + 1)
    omega

theorem capture_reset_then_sow_witness :
    (exec_loop demo_rules 3 captured_hand).2 = MXS_NOTDONE ∧
    (exec_loop demo_rules 3 captured_hand).1.side = P_SOUTH ∧
    (exec_loop demo_rules 3 captured_hand).1.hole = 2 ∧
    (exec_loop demo_rules 3 captured_hand).1.dir = MXD_RIGHT ∧
    (exec_loop demo_rules 3 captured_hand).1.nkhomo = 2 ∧
    (exec_loop demo_rules 3 captured_hand).1.state =
      set_board (exec_loop demo_rules 2 captured_hand).1.state P_SOUTH 2
        (u32_inc ((exec_loop demo_rules 2 captured_hand).1.state.board P_SOUTH 2)) :=
  capture_reset_then_sow captured_hand demo_rules 0 (by decide) (by decide) (by decide)
    (by decide) (by decide) (by decide) 2 (by decide)

/-! ## The tie-break of the search -/

theorem tie_flip_zero (r : Int) : (to_int32 (r * 10)).tmod 2 = 0 :=
  Int.tmod_eq_zero_of_dvd (by unfold to_int32; omega)

theorem best_branch_loop_tie (score_of : BaoTree → Option Int) (rand : Nat → Int) (i n : Nat)
    (c : BaoTree) (cs : List BaoTree) (best_path max_score : Int) (calls : Nat)
    (hc : score_of c = some max_score) :
    best_branch_loop score_of rand i (n + 1) (c :: cs) best_path max_score calls
      = best_branch_loop score_of rand (i + 1) n cs (i : Int) max_score (calls + 1) := by
  rw [best_branch_loop]
  simp only [hc, if_true, tie_flip_zero]
  simp

theorem best_branch_loop_rand (score_of : BaoTree → Option Int) (rand : Nat → Int) :
    ∀ (cs : List BaoTree) (i n : Nat) (best_path max_score : Int) (calls : Nat),
      best_branch_loop score_of rand i n cs best_path max_score calls
        = best_branch_loop score_of (fun _ => 0) i n cs best_path max_score calls := by
  intro cs
  induction cs with
  | nil => intro i n bp ms calls; cases n <;> simp [best_branch_loop]
  | cons c cs ih =>
    intro i n bp ms calls
    cases n with
    | zero => simp [best_branch_loop]
    | succ n =>
      rw [best_branch_loop, best_branch_loop]
      cases score_of c with
      | none => rfl
      | some score =>
        simp only [tie_flip_zero]
        split
        · rw [ih]
        · split
          · exact ih _ _ _ _ _
          · exact ih _ _ _ _ _

theorem best_branch_rand (leftover : Nat) (rand : Nat → Int) (node : BaoTree) (rules : BaoRules)
    (depth : Nat) :
    best_branch leftover rand node rules depth
      = best_branch leftover (fun _ => 0) node rules depth := by
  unfold best_branch
  split
  · rfl
  · split
    · rfl
    · exact best_branch_loop_rand _ _ _ _ _ _ _ _

/-- C24: the tie-break of `best_branch` does not depend on the value drawn.
For every value `r` of `rand()`, `(r * 10) % 2`, the product computed in 32-bit
wrap-around arithmetic, is 0; so whenever the score of a child equals the
current maximum, the index of that child replaces the current best index,
whatever `rand` returns.  On `tie_root`, whose two children both score -1 at
depth 0, `best_branch` returns the later index 1 for every `rand` (the child
counts that `dup_node` leaves unwritten reading as 0). -/
theorem best_branch_tie_ignores_rand :
    (∀ r : Int, (to_int32 (r * 10)).tmod 2 = 0) ∧
    (∀ (score_of : BaoTree → Option Int) (rand : Nat → Int) (i n : Nat) (c : BaoTree)
        (cs : List BaoTree) (best_path max_score : Int) (calls : Nat),
      score_of c = some max_score →
      best_branch_loop score_of rand i (n + 1) (c :: cs) best_path max_score calls
        = best_branch_loop score_of rand (i + 1) n cs (i : Int) max_score (calls + 1)) ∧
    (grow_tree tie_root demo_rules).map
        (fun g => g.2.children.map
          (fun c => (get_best_score 0 P_SOUTH demo_rules 0 c).map Prod.fst))
      = some [some (-1), some (-1)] ∧
    (∀ rand : Nat → Int, best_branch 0 rand tie_root demo_rules 0 = some 1) := by
  refine ⟨tie_flip_zero, best_branch_loop_tie, by decide, fun rand => ?_⟩
  rw [best_branch_rand]
  decide

/-! ## The relaxed pass of the first stage -/

theorem get_moves_bak_loop_length (bufsz : Int) (s : BaoState) (r : BaoRules) (t : MoveTestFunc) :
    ∀ (hs : List Nat) (buf : List (Nat × Int)),
      buf.length ≤ (get_moves_bak_loop bufsz s r t hs buf).length := by
  intro hs
  induction hs with
  | nil => intro buf; simp [get_moves_bak_loop]
  | cons h hs ih =>
    intro buf
    unfold get_moves_bak_loop
    dsimp only
    split_ifs <;>
      first
      | exact Nat.le_refl _
      | exact Nat.le_trans (by simp) (ih _)
      | simp

theorem get_moves_bak_loop_full (s : BaoState) (r : BaoRules) (t : MoveTestFunc) :
    ∀ (hs : List Nat), get_moves_bak_loop 0 s r t hs [] = [] := by
  intro hs
  induction hs with
  | nil => rfl
  | cons h hs ih =>
    unfold get_moves_bak_loop
    cases hL : t s r h MXD_LEFT <;> cases hR : t s r h MXD_RIGHT <;> simp [ih]

/-- A pass of `get_moves_bak` that finds no move leaves no move to a pass with
a stronger test. -/
theorem get_moves_bak_loop_weaker (bufsz : Int) (s : BaoState) (r : BaoRules)
    (t1 t2 : MoveTestFunc) (himp : ∀ h d, t2 s r h d = true → t1 s r h d = true) :
    ∀ (hs : List Nat), get_moves_bak_loop bufsz s r t1 hs [] = [] →
      get_moves_bak_loop bufsz s r t2 hs [] = [] := by
  by_cases hb : bufsz = 0
  · intro hs _
    rw [hb]
    exact get_moves_bak_loop_full s r t2 hs
  · have hb2 : ¬ (0 : Int) = bufsz := fun h => hb h.symm
    intro hs
    induction hs with
    | nil => intro _; rfl
    | cons h hs ih =>
      intro h1
      have hlen := fun buf => get_moves_bak_loop_length bufsz s r t1 hs buf
      unfold get_moves_bak_loop at h1 ⊢
      have hL : t1 s r h MXD_LEFT = false := by
        by_contra hc
        simp only [Bool.not_eq_false] at hc
        simp only [hc, List.length_nil, Nat.cast_zero, hb2, and_false, if_false, if_true,
          List.nil_append, List.length_singleton] at h1
        split at h1
        · cases h1
        · have := hlen (if t1 s r h MXD_RIGHT = true then [(h, MXD_LEFT)] ++ [(h, MXD_RIGHT)]
            else [(h, MXD_LEFT)])
          rw [h1] at this
          split at this <;> simp at this
      have hR : t1 s r h MXD_RIGHT = false := by
        by_contra hc
        simp only [Bool.not_eq_false] at hc
        simp only [hL, hc, List.length_nil, Nat.cast_zero, hb2, and_false, if_false, if_true,
          List.nil_append, Bool.false_eq_true, false_and] at h1
        have := hlen [(h, MXD_RIGHT)]
        rw [h1] at this
        simp at this
      have hL2 : t2 s r h MXD_LEFT = false := by
        by_contra hc
        simp only [Bool.not_eq_false] at hc
        rw [himp h _ hc] at hL
        cases hL
      have hR2 : t2 s r h MXD_RIGHT = false := by
        by_contra hc
        simp only [Bool.not_eq_false] at hc
        rw [himp h _ hc] at hR
        cases hR
      simp only [hL, hR, Bool.false_eq_true, false_and, if_false] at h1
      simp only [hL2, hR2, Bool.false_eq_true, false_and, if_false]
      exact ih h1

theorem singleton_implies_takata (s : BaoState) (r : BaoRules) (h : Nat) (d : Int)
    (ht : test_namua_takata_singleton s r h d = true) : test_namua_takata s r h d = true := by
  unfold test_namua_takata_singleton at ht
  unfold test_namua_takata
  split at ht
  · cases ht
  · rename_i hc
    simp only [Bool.or_eq_true, beq_iff_eq, not_or] at hc
    rw [if_neg]
    simp only [Bool.or_eq_true, beq_iff_eq, Bool.and_eq_true, not_or, not_and]
    exact ⟨hc.1, fun h4 => absurd h4 hc.2⟩

/-- C25: for every state, buffer size and rule set, when the ordinary-sow pass
of the first stage (`test_namua_takata` over the holes 0 to 7) finds no move,
the relaxed pass (`test_namua_takata_singleton` over the same holes) finds no
move either; and `get_moves` returns the same moves and leaves the same state
(the sow flag included) as the enumerator without the relaxed pass. -/
theorem get_moves_singleton_pass_redundant (bufsz : Int) (s : BaoState) (r : BaoRules) :
    (get_moves_bak bufsz s r H_LFKICHWA H_RFKICHWA test_namua_takata = [] →
      get_moves_bak bufsz s r H_LFKICHWA H_RFKICHWA test_namua_takata_singleton = []) ∧
    get_moves bufsz s r = get_moves_without_singleton bufsz s r := by
  have key : ∀ s1 : BaoState,
      get_moves_bak bufsz s1 r H_LFKICHWA H_RFKICHWA test_namua_takata = [] →
      get_moves_bak bufsz s1 r H_LFKICHWA H_RFKICHWA test_namua_takata_singleton = [] := by
    intro s1
    unfold get_moves_bak
    exact get_moves_bak_loop_weaker bufsz s1 r _ _ (singleton_implies_takata s1 r) _
  refine ⟨key s, ?_⟩
  unfold get_moves get_moves_without_singleton
  split
  · dsimp only
    split
    · rfl
    · split
      · rfl
      · rename_i h2
        have h3 := key { s with takata := 1 } (by simpa using h2)
        rw [h3]
        simp
  · rfl

/-! ## The holes a move accesses -/

theorem Hand_step_hole_le_15 (h : Hand) (hh : h.hole ≤ 15) : (Hand_step h).hole ≤ 15 := by
  unfold Hand_step
  simp only [H_LBKICHWA, H_LFKICHWA]
  split
  · split
    · exact Nat.zero_le _
    · simp only; omega
  · split
    · split
      · exact Nat.le_refl _
      · simp only; omega
    · exact hh

theorem Hand_reset_hole_le_7 (h : Hand) : (Hand_reset h).hole ≤ 7 := by
  unfold Hand_reset
  split
  · exact (by decide : H_LFKICHWA ≤ 7)
  · split
    · exact (by decide : H_RFKICHWA ≤ 7)
    · split
      · exact (by decide : H_LFKICHWA ≤ 7)
      · exact (by decide : H_RFKICHWA ≤ 7)

theorem exec_step_hole_le_15 (hand : Hand) (rules : BaoRules) (hh : hand.hole ≤ 15) :
    (exec_step hand rules).1.hole ≤ 15 := by
  unfold exec_step
  by_cases hn : hand.nkhomo = 0
  · rw [if_pos hn]
    by_cases hsw : Hand_can_switch_side hand rules = true
    · rw [if_pos hsw]
      have hfront := Hand_can_switch_side_front hand rules hsw
      have hsh : (Hand_lift (Hand_switch_side hand)).hole ≤ 15 := by
        simp only [Hand_lift, Hand_switch_side, get_opposing_hole_front _ hfront]
        omega
      dsimp only
      split
      · exact hsh
      · exact hsh
    · rw [if_neg hsw]
      dsimp only
      split
      · split
        · split
          · split <;> exact hh
          · exact hh
        · split
          · exact hh
          · exact hh
      · exact hh
  · rw [if_neg hn]
    split
    · exact Nat.le_trans (Hand_reset_hole_le_7 (Hand_switch_side hand)) (by decide)
    · exact Hand_step_hole_le_15 hand hh

theorem exec_loop_hole_le_15 (rules : BaoRules) :
    ∀ (n : Nat) (hand : Hand), hand.hole ≤ 15 → (exec_loop rules n hand).1.hole ≤ 15 := by
  intro n
  induction n with
  | zero => intro hand hh; exact hh
  | succ n ih =>
    intro hand hh
    have hs := exec_step_hole_le_15 hand rules hh
    rcases hst : exec_step hand rules with ⟨h1, _ | sts⟩
    · rw [hst] at hs
      rw [exec_loop_succ_none rules n hand h1 hst]
      exact ih h1 hs
    · rw [hst] at hs
      rw [exec_loop_succ_some rules n hand h1 sts hst]
      exact hs

theorem start_move_accesses_le (s : BaoState) (r : BaoRules) (m : Move) (hm : m.hole ≤ 15) :
    ∀ a ∈ start_move_accesses s r m, a.2 ≤ 16 := by
  intro a ha
  unfold start_move_accesses at ha
  split at ha
  · dsimp only at ha
    simp only [List.mem_append, List.mem_cons, List.mem_singleton, List.not_mem_nil,
      or_false] at ha
    rcases ha with (((ha | ha | ha) | ha) | ha)
    · rw [ha]; exact (by decide : H_STORE ≤ 16)
    · rw [ha]; exact (by decide : H_STORE ≤ 16)
    · rw [ha]; simp only; omega
    · split at ha
      · simp only [List.mem_singleton] at ha
        rw [ha]; simp only; omega
      · cases ha
    · split at ha
      · simp only [List.mem_cons, List.mem_singleton, List.not_mem_nil, or_false] at ha
        rcases ha with ha | ha
        · rw [ha]; exact (by decide : H_NYUMBA ≤ 16)
        · rw [ha]; exact (by decide : H_STORE ≤ 16)
      · cases ha
  · simp only [Hand_lift_accesses, List.mem_cons, List.mem_singleton, List.not_mem_nil,
      or_false] at ha
    rcases ha with ha | ha | ha
    · rw [ha]; exact (by decide : H_STORE ≤ 16)
    · rw [ha]; simp only; omega
    · rw [ha]; simp only; omega

theorem exec_step_accesses_le (hand : Hand) (rules : BaoRules) (hh : hand.hole ≤ 15) :
    ∀ a ∈ exec_step_accesses hand rules, a.2 ≤ 16 := by
  have hlift : ∀ h : Hand, h.hole ≤ 15 → ∀ a ∈ Hand_lift_accesses h, a.2 ≤ 16 := by
    intro h hle a ha
    simp only [Hand_lift_accesses, List.mem_cons, List.mem_singleton, List.not_mem_nil,
      or_false, or_self] at ha
    rw [ha]; simp only; omega
  have hsow : ∀ h : Hand, h.hole ≤ 15 → ∀ a ∈ Hand_sow_accesses h, a.2 ≤ 16 := by
    intro h hle a ha
    simp only [Hand_sow_accesses, List.mem_singleton] at ha
    rw [ha]; simp only; omega
  intro a ha
  unfold exec_step_accesses at ha
  split at ha
  · rw [List.mem_append] at ha
    rcases ha with ha | ha
    · unfold Hand_can_switch_side_accesses at ha
      split at ha
      · cases ha
      · rename_i hc
        have hfront : hand.hole ≤ 7 := by
          simp only [H_RFKICHWA, not_or, not_lt] at hc
          exact hc.1
        split at ha
        · simp only [List.mem_singleton] at ha
          rw [ha]; simp only; omega
        · simp only [List.mem_cons, List.mem_singleton, List.not_mem_nil, or_false] at ha
          rcases ha with ha | ha
          · rw [ha]; simp only; omega
          · rw [ha, get_opposing_hole_front _ hfront]; simp only; omega
    · split at ha
      · rename_i hsw
        have hfront := Hand_can_switch_side_front hand rules hsw
        refine hlift (Hand_switch_side hand) ?_ a ha
        simp only [Hand_switch_side, get_opposing_hole_front _ hfront]
        omega
      · rw [List.mem_append] at ha
        rcases ha with ha | ha
        · simp only [Hand_can_lift_accesses, List.mem_singleton] at ha
          rw [ha]; simp only; omega
        · split at ha
          · split at ha
            · rw [List.mem_cons] at ha
              rcases ha with ha | ha
              · rw [ha]; exact (by decide : H_STORE ≤ 16)
              · split at ha
                · cases ha
                · exact hlift hand hh a ha
            · rw [List.mem_cons] at ha
              rcases ha with ha | ha
              · rw [ha]; exact (by decide : H_STORE ≤ 16)
              · split at ha
                · cases ha
                · exact hlift hand hh a ha
          · cases ha
  · split at ha
    · exact hsow _ (Nat.le_trans (Hand_reset_hole_le_7 _) (by decide)) a ha
    · exact hsow _ (Hand_step_hole_le_15 hand hh) a ha

theorem exec_loop_accesses_le (rules : BaoRules) :
    ∀ (n : Nat) (hand : Hand), hand.hole ≤ 15 →
      ∀ a ∈ exec_loop_accesses rules n hand, a.2 ≤ 16 := by
  intro n
  induction n with
  | zero => intro hand _ a ha; cases ha
  | succ n ih =>
    intro hand hh a ha
    have hs := exec_step_hole_le_15 hand rules hh
    unfold exec_loop_accesses at ha
    rw [List.mem_append] at ha
    rcases ha with ha | ha
    · exact exec_step_accesses_le hand rules hh a ha
    · rcases hst : exec_step hand rules with ⟨h1, _ | sts⟩
      · rw [hst] at ha hs
        exact ih h1 hs a ha
      · rw [hst] at ha
        cases ha

/-- C26, as stated: not every board access of `start_move` and `exec_move` is
at a hole of 0 to 15.  `start_move` reads and decrements the store, hole 16, of
the mover in the first stage, and `exec_move` reads it before lifting a hole. -/
theorem start_move_reads_store :
    (P_SOUTH, H_STORE) ∈ start_move_accesses namua_capture_state demo_rules ⟨2, MXD_LEFT, 0⟩ ∧
    (P_SOUTH, H_STORE) ∈
      exec_move_accesses (start_move halting_state demo_rules ⟨0, MXD_RIGHT, 0⟩) demo_rules 50 ∧
    ¬ (H_STORE ≤ 15) := by
  decide

/-- C26, amended: for every state, every move whose hole is in 0 to 15 and
every step count, each board access of `start_move` and of the `exec_move` that
follows is at an index of 0 to 16, inside the 17 entries of a side (the
accesses at index 16 are those of the store, made at fixed places), and the
hand's hole stays in 0 to 15, so it is never the store.  Stepping left from
hole 0 leads to hole 15, stepping right from hole 15 leads to hole 0, and a
capture switch is made only from a hole `h` of 0 to 7, to the hole `7 - h`. -/
theorem exec_move_accesses_in_bounds (state : BaoState) (rules : BaoRules) (move : Move)
    (steps : Int) (hm : move.hole ≤ 15) :
    (∀ a ∈ start_move_accesses state rules move
        ++ exec_move_accesses (start_move state rules move) rules steps, a.2 < NHOLES) ∧
    (exec_move (start_move state rules move) rules steps).1.hole ≤ 15 ∧
    (∀ hand : Hand, hand.hole = 0 → hand.dir = MXD_LEFT → (Hand_step hand).hole = 15) ∧
    (∀ hand : Hand, hand.hole = 15 → hand.dir = MXD_RIGHT → (Hand_step hand).hole = 0) ∧
    (∀ hand : Hand, Hand_can_switch_side hand rules = true →
      hand.hole ≤ 7 ∧ (Hand_switch_side hand).hole = 7 - hand.hole) := by
  have hstart : (start_move state rules move).hole ≤ 15 := by
    rw [start_move_hole]; exact hm
  refine ⟨?_, exec_loop_hole_le_15 rules _ _ hstart, ?_, ?_, ?_⟩
  · intro a ha
    rw [List.mem_append] at ha
    have h17 : NHOLES = 17 := rfl
    rcases ha with ha | ha
    · have := start_move_accesses_le state rules move hm a ha
      omega
    · have := exec_loop_accesses_le rules _ _ hstart a ha
      omega
  · intro hand h0 hd
    unfold Hand_step
    rw [if_neg (by rw [hd]; decide), if_pos hd, h0]
    rfl
  · intro hand h15 hd
    unfold Hand_step
    rw [if_pos hd, h15]
    rfl
  · intro hand hsw
    have hfront := Hand_can_switch_side_front hand rules hsw
    exact ⟨hfront, get_opposing_hole_front _ hfront⟩

theorem exec_move_accesses_in_bounds_witness :
    (2 : Nat) ≤ 15 ∧
    ((∀ a ∈ start_move_accesses namua_capture_state demo_rules ⟨2, MXD_LEFT, 0⟩
        ++ exec_move_accesses (start_move namua_capture_state demo_rules ⟨2, MXD_LEFT, 0⟩)
            demo_rules 50, a.2 < NHOLES) ∧
    (exec_move (start_move namua_capture_state demo_rules ⟨2, MXD_LEFT, 0⟩)
      demo_rules 50).1.hole ≤ 15 ∧
    (∀ hand : Hand, hand.hole = 0 → hand.dir = MXD_LEFT → (Hand_step hand).hole = 15) ∧
    (∀ hand : Hand, hand.hole = 15 → hand.dir = MXD_RIGHT → (Hand_step hand).hole = 0) ∧
    (∀ hand : Hand, Hand_can_switch_side hand demo_rules = true →
      hand.hole ≤ 7 ∧ (Hand_switch_side hand).hole = 7 - hand.hole)) :=
  ⟨by decide, exec_move_accesses_in_bounds namua_capture_state demo_rules ⟨2, MXD_LEFT, 0⟩ 50
    (by decide)⟩

/-! ## The child count of a fresh child -/

theorem candidate_children_fresh (rules : BaoRules) (parent : BaoTree) (mv : Nat × Int)
    (c : BaoTree) (hc : c ∈ candidate_children rules parent mv) :
    c.nchildren = none ∧ c.children = [] ∧ c.parent = none := by
  unfold candidate_children at hc
  split at hc
  · split at hc
    · simp only [List.mem_singleton] at hc
      subst hc
      exact ⟨rfl, rfl, rfl⟩
    · simp only [List.mem_cons, List.mem_singleton, List.not_mem_nil, or_false] at hc
      rcases hc with hc | hc <;> subst hc <;> exact ⟨rfl, rfl, rfl⟩
  · split at hc
    · simp at hc
    · simp only [List.mem_singleton] at hc
      subst hc
      exact ⟨rfl, rfl, rfl⟩

/-- C27: every child that `grow_tree` makes for a node without children has
all its child slots empty, but its child count is never written.  A later
`grow_tree` on the child therefore reads an unwritten count; when the
allocation holds a value `k` other than 0 there, `grow_tree` returns `k`
without enumerating a move, and `get_best_score` at depth 0 leaves the child
as it found it, with no child stored. -/
theorem grow_tree_leaves_count_unset (parent : BaoTree) (rules : BaoRules) (n : Nat)
    (p1 : BaoTree) (h0 : parent.nchildren = some 0)
    (hg : grow_tree parent rules = some (n, p1)) :
    ∀ c ∈ p1.children,
      c.children = [] ∧ c.nchildren = none ∧ grow_tree c rules = none ∧
      ∀ k : Nat, k ≠ 0 →
        grow_tree (count_read k c) rules = some (k, count_read k c) ∧
        ∀ player : Player,
          (get_best_score k player rules 0 c).map Prod.snd = some (count_read k c) := by
  rw [grow_tree_eq parent rules h0] at hg
  simp only [Option.some.injEq, Prod.mk.injEq] at hg
  intro c hc
  rw [← hg.2] at hc
  simp only [BaoTree.children] at hc
  rw [mem_all_children] at hc
  obtain ⟨mv, _, hcm⟩ := hc
  obtain ⟨f1, f2, _⟩ := candidate_children_fresh rules _ mv c hcm
  have hcr : ∀ k, (count_read k c).nchildren = some k := by
    intro k
    unfold count_read
    rw [f1]
    rfl
  have hgrow : ∀ k : Nat, k ≠ 0 → grow_tree (count_read k c) rules = some (k, count_read k c) := by
    intro k hk
    unfold grow_tree
    rw [hcr k]
    simp only [hk, ne_eq, not_false_eq_true, if_true]
  refine ⟨f2, f1, ?_, fun k hk => ⟨hgrow k hk, fun player => ?_⟩⟩
  · unfold grow_tree
    rw [f1]
  · unfold get_best_score
    rw [hgrow k hk]
    simp only [eval_branch, hcr k, hk, if_false]
    split <;> rfl

theorem grow_tree_leaves_count_unset_witness :
    ∃ c ∈ all_children demo_rules
        (set_state (trap_probe_root 1)
          (get_moves MAXTRANS (trap_probe_root 1).state demo_rules).2)
        (get_moves MAXTRANS (trap_probe_root 1).state demo_rules).1,
      c.nchildren = none ∧ grow_tree (count_read 3 c) demo_rules = some (3, count_read 3 c) := by
  obtain ⟨c, hc⟩ := List.exists_mem_of_length_pos
    (by decide : 0 < (all_children demo_rules
        (set_state (trap_probe_root 1)
          (get_moves MAXTRANS (trap_probe_root 1).state demo_rules).2)
        (get_moves MAXTRANS (trap_probe_root 1).state demo_rules).1).length)
  have h := grow_tree_leaves_count_unset (trap_probe_root 1) demo_rules _ _ rfl
    (grow_tree_eq (trap_probe_root 1) demo_rules rfl) c hc
  exact ⟨c, hc, h.2.1, (h.2.2.2 3 (by decide)).1⟩

/-! ## The sow flag after the enumerator -/

/-- C13 (failing input): `crowded_root` has no child and `get_moves` gives 14
candidates on its state.  The passes of the loop of `grow_tree` for the ten
first candidates store 20 children, which fill the `children` array; the
eleventh candidate, (6, left), halts on the reserve hole, so `grow_tree` stores
its paused child at index 20, outside the array: the first call does not stay
inside the array (`grow_tree_in_bounds` fails), and there is no count for a
second call to return again. -/
theorem grow_tree_first_call_leaves_array :
    crowded_root.nchildren = some 0 ∧
    MAXTRANS = 20 ∧
    (grow_tree_loop demo_rules
      (set_state crowded_root (get_moves MAXTRANS crowded_root.state demo_rules).2)
      ((get_moves MAXTRANS crowded_root.state demo_rules).1.take 10) []).length = 20 ∧
    (get_moves MAXTRANS crowded_root.state demo_rules).1.get? 10 = some (6, MXD_LEFT) ∧
    (first_run demo_rules (get_moves MAXTRANS crowded_root.state demo_rules).2
      (6, MXD_LEFT)).2 = MXS_HAULTED ∧
    ¬ grow_tree_in_bounds crowded_root demo_rules := by
  decide

/-- C16 (failing input): the first child that `grow_tree` makes for
`trap_probe_root 1` has no child stored and a child count that was never
written.  `find_branch` on it reads that count: it has no result in the
embedding; when the allocation holds the count 3, the loop of `find_branch`
reads the move of the child in slot 0, which is `NULL`, where the claim gives
-1; only when the allocation holds 0 does `find_branch` return -1. -/
theorem find_branch_reads_unset_count :
    ((grow_tree (trap_probe_root 1) demo_rules).bind (fun g => g.2.children.get? 0)).map
      (fun c => (c.nchildren, c.children.length,
        find_branch c ⟨8, MXD_LEFT, 0⟩,
        find_branch (count_read 3 c) ⟨8, MXD_LEFT, 0⟩,
        find_branch (count_read 0 c) ⟨8, MXD_LEFT, 0⟩))
      = some (none, 0, none, none, some (-1)) := by
  decide

end Bao
